import Mathlib

/-!
# Verification of the prismo Allocation & Rebalancing Engine

Shallow embedding of `app/services/allocation_service.py` over exact
rationals (Python floats / Decimals are modelled as `ℚ`; the claims'
"up to floating-point epsilon" tolerances become exact (in)equalities).

Python dicts used as informal records become Lean structures; dict keys
that may be absent become `Option` fields, with `.getD` modelling
`dict.get(key, default)`.  Direct indexing `d['k']` is also modelled as
`.getD` of the written default value; in every reachable state of the
algorithm the key is present, so the two coincide.
-/

namespace Prismo

/-- The `investment_type` values with dedicated caps in the source
(`Stock`, `ETF`, `Crypto`); `none` models a Python `None` / unknown type. -/
inductive InvestmentType where
  | Stock
  | ETF
  | Crypto
deriving DecidableEq, Repr

/-- The `applicable_rule` strings assigned by
`_apply_type_constraints_recursive`. -/
inductive CapRule where
  | maxPerStock
  | maxPerETF
  | maxPerCrypto
  | unknown_type
  | zero_portfolio_value
deriving DecidableEq, Repr

/-- One position dict.  The four trailing fields model the capping
metadata keys that `_apply_type_constraints_recursive` and the merge
step of `calculate_allocation_targets_with_type_constraints` write;
`none` means the key is absent from the dict. -/
structure Position where
  name : String
  identifier : Option String := none
  investment_type : Option InvestmentType := none
  isPlaceholder : Bool := false
  positionSlot : Option Nat := none
  currentValue : ℚ := 0
  targetAllocation : ℚ := 0
  targetValue : ℚ := 0
  unconstrained_target_value : Option ℚ := none
  constrained_target_value : Option ℚ := none
  is_capped : Option Bool := none
  applicable_rule : Option CapRule := none
deriving DecidableEq, Repr

/-- Which `return` of `_apply_type_constraints_recursive` produced the
result.  The source signals this only through log lines; the tag is a
transparent instrumentation of the same control flow. -/
inductive ExitKind where
  | iterationCeiling
  | zeroPortfolioValue
  | allCapped
  | noAvailableValue
  | converged
deriving DecidableEq, Repr

/-- Python truthiness of `pos.get('is_capped', False)`. -/
def Position.cappedFlag (p : Position) : Bool :=
  p.is_capped.getD false

/-- `pos['constrained_target_value']` (present in every reachable read). -/
def Position.constrainedVal (p : Position) : ℚ :=
  p.constrained_target_value.getD 0

/-- `pos['unconstrained_target_value']` (present in every reachable read). -/
def Position.unconstrainedVal (p : Position) : ℚ :=
  p.unconstrained_target_value.getD 0

/-- Lines 58–62: metadata written when the portfolio target value is
not positive. -/
def zeroOutPosition (p : Position) : Position :=
  { p with
    unconstrained_target_value := some p.targetValue
    constrained_target_value := some 0
    is_capped := some true
    applicable_rule := some CapRule.zero_portfolio_value }

/-- Lines 69–74: metadata initialisation on iteration 0. -/
def initMetaPosition (p : Position) : Position :=
  { p with
    unconstrained_target_value := some p.targetValue
    constrained_target_value := some p.targetValue
    is_capped := some false
    applicable_rule := none }

/-- Cap percentage for an investment type (lines 103–111). -/
def capOf (maxStockPct maxEtfPct maxCryptoPct : ℚ) :
    InvestmentType → ℚ
  | InvestmentType.Stock => maxStockPct
  | InvestmentType.ETF => maxEtfPct
  | InvestmentType.Crypto => maxCryptoPct

/-- Rule name recorded when a cap binds (lines 105–111). -/
def ruleOf : InvestmentType → CapRule
  | InvestmentType.Stock => CapRule.maxPerStock
  | InvestmentType.ETF => CapRule.maxPerETF
  | InvestmentType.Crypto => CapRule.maxPerCrypto

/-- Body of the per-position loop of lines 97–135: cap check for one
(uncapped) position.  The `Bool` records whether this position set
`any_capped_this_iteration`. -/
def capOne (V maxStockPct maxEtfPct maxCryptoPct : ℚ) (p : Position) :
    Position × Bool :=
  if p.cappedFlag then (p, false)
  else
    match p.investment_type with
    | none =>
      ({ p with
          is_capped := some true
          constrained_target_value := some 0
          applicable_rule := some CapRule.unknown_type }, true)
    | some t =>
      let target_pct := p.constrainedVal / V * 100
      let cap_pct := capOf maxStockPct maxEtfPct maxCryptoPct t
      if target_pct > cap_pct then
        ({ p with
            is_capped := some true
            constrained_target_value := some (cap_pct / 100 * V)
            applicable_rule := some (ruleOf t) }, true)
      else (p, false)

/-- `sum(pos['constrained_target_value'] for pos in capped_positions)`:
the constrained value held by the currently capped positions (computed at
lines 86 and 144). -/
def cappedSum (l : List Position) : ℚ :=
  ((l.filter fun p => p.cappedFlag).map Position.constrainedVal).sum

/-- The body of the redistribution loops of lines 154–156 and 160–161:
each still-uncapped position's `constrained_target_value` is overwritten
with `f` of the position, capped positions are untouched (the Python
loops iterate over `new_uncapped_positions` only). -/
def condUpdate (f : Position → ℚ) (p : Position) : Position :=
  if p.cappedFlag then p
  else { p with constrained_target_value := some (f p) }

/-- Lines 138–161: redistribution of the freed capacity across the
still-uncapped positions, proportionally to their *original*
unconstrained targets (equal split when that weight sum is not
positive). -/
def redistribute (V : ℚ) (positions : List Position) : List Position :=
  let new_uncapped := positions.filter fun p => !p.cappedFlag
  if new_uncapped.isEmpty then positions
  else
    let new_available_value := V - cappedSum positions
    if new_available_value > 0 then
      let total_uncapped_weight := (new_uncapped.map Position.unconstrainedVal).sum
      if total_uncapped_weight > 0 then
        positions.map (condUpdate fun p =>
          p.unconstrainedVal / total_uncapped_weight * new_available_value)
      else
        positions.map (condUpdate fun _ =>
          new_available_value / (new_uncapped.length : ℚ))
    else positions

/-- One call body of `_apply_type_constraints_recursive` (lines 50–180),
minus the fuel check: `.inl` is an immediate `return`, `.inr` the state
passed to the recursive call. -/
def applyStep (V maxStockPct maxEtfPct maxCryptoPct : ℚ) (isFirst : Bool)
    (positions0 : List Position) : (List Position × ExitKind) ⊕ List Position :=
  if V ≤ 0 then
    Sum.inl (positions0.map zeroOutPosition, ExitKind.zeroPortfolioValue)
  else
    let positions := if isFirst then positions0.map initMetaPosition else positions0
    let uncapped_positions := positions.filter fun p => !p.cappedFlag
    if uncapped_positions.isEmpty then Sum.inl (positions, ExitKind.allCapped)
    else
      let available_value := V - cappedSum positions
      if available_value ≤ 0 then Sum.inl (positions, ExitKind.noAvailableValue)
      else
        let passed := positions.map fun p =>
          (capOne V maxStockPct maxEtfPct maxCryptoPct p).fst
        if positions.any (fun p => (capOne V maxStockPct maxEtfPct maxCryptoPct p).snd) then
          Sum.inr (redistribute V passed)
        else Sum.inl (passed, ExitKind.converged)

/-- `_apply_type_constraints_recursive`, with the recursion depth
`max_iterations - iteration` as structural fuel and `iteration == 0`
as the `isFirst` flag.  Fuel 0 is the `iteration >= max_iterations`
ceiling return of lines 50–52. -/
def applyTypeConstraintsAux (V maxStockPct maxEtfPct maxCryptoPct : ℚ) :
    ℕ → Bool → List Position → List Position × ExitKind
  | 0, _, positions => (positions, ExitKind.iterationCeiling)
  | fuel + 1, isFirst, positions =>
    match applyStep V maxStockPct maxEtfPct maxCryptoPct isFirst positions with
    | Sum.inl result => result
    | Sum.inr next =>
      applyTypeConstraintsAux V maxStockPct maxEtfPct maxCryptoPct fuel false next

/-- `_apply_type_constraints_recursive(positions, V, ...)` at the
default call (`iteration = 0`, `max_iterations = 100`). -/
def applyTypeConstraintsRecursive (positions : List Position)
    (V maxStockPct maxEtfPct maxCryptoPct : ℚ) : List Position × ExitKind :=
  applyTypeConstraintsAux V maxStockPct maxEtfPct maxCryptoPct 100 true positions

/-- Sum of the `constrained_target_value` entries of a position list. -/
def sumConstrained (l : List Position) : ℚ :=
  (l.map Position.constrainedVal).sum

/-- Sum of the input `targetValue` entries of a position list. -/
def sumTargets (l : List Position) : ℚ :=
  (l.map Position.targetValue).sum

/-! ### Run invariants of the constraint iteration -/

/-- Every position carries an investment type (as the caller's
`valid_positions` filter guarantees). -/
def TypedAll (l : List Position) : Prop :=
  ∀ p ∈ l, p.investment_type.isSome = true

/-- Every capped position sits exactly at its cap value.  This is the
spec's §3 invariant: "if `isCapped` then `constrainedTargetValue` equals
the cap amount exactly". -/
def CappedOK (V s e c : ℚ) (l : List Position) : Prop :=
  ∀ p ∈ l, p.cappedFlag = true →
    ∃ t, p.investment_type = some t ∧
      p.constrained_target_value = some (capOf s e c t / 100 * V)

/-- State at a convergence-style exit: capped positions sit exactly at
their caps, uncapped ones satisfy the percentage check. -/
def ConvState (V s e c : ℚ) (l : List Position) : Prop :=
  ∀ p ∈ l, ∃ t, p.investment_type = some t ∧
    ((p.cappedFlag = true ∧
        p.constrained_target_value = some (capOf s e c t / 100 * V)) ∨
     (p.cappedFlag = false ∧ p.constrainedVal / V * 100 ≤ capOf s e c t))

/-! ### Concrete inputs for witnesses and counterexamples -/

/-- A stock position with an identifier, as the caller's `valid_positions`
filter produces. -/
def stockPos (nm : String) (tv : ℚ) : Position :=
  { name := nm, identifier := some nm,
    investment_type := some InvestmentType.Stock, targetValue := tv }

def c1Positions : List Position := [stockPos "A" 9000, stockPos "B" 1000]

def c2Positions : List Position := [stockPos "A" 70, stockPos "B" 70]

def c3Positions : List Position :=
  [{ stockPos "A" 9000 with
      unconstrained_target_value := some 9000,
      constrained_target_value := some 5000,
      is_capped := some true,
      applicable_rule := some CapRule.maxPerStock },
   { stockPos "B" 1000 with
      unconstrained_target_value := some 1000,
      constrained_target_value := some 1000,
      is_capped := some false }]

def c5Positions : List Position := [stockPos "A" 9000, stockPos "B" 1000]

/-! ### The Unconstrained Target Allocator (`calculate_allocation_targets`)
and the constrained pipeline
(`calculate_allocation_targets_with_type_constraints`) -/

/-- A positions entry of the builder configuration (Input B). -/
structure BuilderPosition where
  companyName : Option String := none
  isPlaceholder : Bool := false
  weight : Option ℚ := none
deriving DecidableEq, Repr

/-- One portfolio's builder configuration as stored by
`get_portfolio_positions` into `portfolio_builder_data`. -/
structure BuilderData where
  minPositions : ℕ := 0
  desiredPositions : Option ℕ := none
  allocation : ℚ := 0
  positions : List BuilderPosition := []
deriving DecidableEq, Repr

/-- One sector of `portfolio_map` (input side). -/
structure SectorData where
  name : String
  positions : List Position := []
  currentValue : ℚ := 0
deriving DecidableEq, Repr

/-- One `portfolio_map` value; the dict becomes a list in iteration
order, its key (the portfolio id) is not read by the allocators. -/
structure PortfolioData where
  name : String
  sectors : List SectorData := []
  currentValue : ℚ := 0
deriving DecidableEq, Repr

/-- One `target_allocations` entry (only the fields the allocators
read). -/
structure TargetAllocation where
  name : String
  allocation : ℚ := 0
deriving DecidableEq, Repr

/-- A sector entry of the result (`portfolio_entry['sectors']`). -/
structure SectorEntry where
  name : String
  positions : List Position := []
  currentValue : ℚ := 0
  positionCount : ℕ := 0
  isPlaceholder : Bool := false
  targetValue : ℚ := 0
  targetWeight : ℚ := 0
deriving DecidableEq, Repr

/-- A portfolio entry of the result (the `color`, `builderPositions` and
`builderAllocation` pass-through fields are omitted: nothing reads
them). -/
structure PortfolioEntry where
  name : String
  currentValue : ℚ := 0
  targetWeight : ℚ := 0
  sectors : List SectorEntry := []
  minPositions : ℕ := 0
  desiredPositions : Option ℕ := none
  effectivePositions : ℕ := 0
  targetValue : ℚ := 0
deriving DecidableEq, Repr

/-- The `rules` mapping with optional `maxPerStock` / `maxPerETF` /
`maxPerCrypto` keys. -/
structure RulesDict where
  maxPerStock : Option ℚ := none
  maxPerETF : Option ℚ := none
  maxPerCrypto : Option ℚ := none
deriving DecidableEq, Repr

/-- Python's built-in `round` on our exact rationals: round half to
even. -/
def pyRound (q : ℚ) : ℤ :=
  let f := ⌊q⌋
  let r := q - (f : ℚ)
  if r < 1/2 then f
  else if (1:ℚ)/2 < r then f + 1
  else if f % 2 = 0 then f else f + 1

/-- `portfolio_builder_data.get(portfolio_name, {})` (line 641). -/
def builderDataFor (builder : List (String × BuilderData)) (nm : String) :
    BuilderData :=
  ((builder.find? fun kv => kv.fst == nm).map Prod.snd).getD
    ({} : BuilderData)

/-- Lines 634–638: first matching target-allocation entry by name,
defaulting to weight 0. -/
def portfolioWeightFor (targets : List TargetAllocation) (nm : String) : ℚ :=
  ((targets.find? fun t => t.name == nm).map TargetAllocation.allocation).getD 0

/-- Lines 675–676: number of current real positions. -/
def currentPositionsCount (pdata : PortfolioData) : ℕ :=
  (pdata.sectors.map fun s => s.positions.length).sum

/-- Lines 677–678: the builder's placeholder entry, if any. -/
def placeholderEntry (bd : BuilderData) : Option BuilderPosition :=
  bd.positions.find? fun p => p.isPlaceholder

/-- Lines 681–683: total weight of the explicit (non-placeholder)
builder positions. -/
def totalRealWeight (bd : BuilderData) : ℚ :=
  ((bd.positions.filter fun p => !p.isPlaceholder).map fun p => p.weight.getD 0).sum

/-- Line 646: `desiredPositions` if set, else `minPositions`. -/
def effectivePositionsFor (bd : BuilderData) : ℕ :=
  bd.desiredPositions.getD bd.minPositions

/-- Lines 697–711: the synthetic "Missing Positions" sector with `k`
placeholder slots carrying the placeholder's weight and zero current
value. -/
def missingSector (w : ℚ) (k : ℕ) : SectorEntry :=
  { name := "Missing Positions",
    positions := (List.range k).map fun i =>
      { name := "Position Slot " ++ toString (i + 1) ++ " (Unfilled)",
        identifier := none, investment_type := none, isPlaceholder := true,
        positionSlot := some (i + 1), currentValue := 0, targetAllocation := w },
    currentValue := 0, positionCount := k, isPlaceholder := true }

/-- Lines 719–729: position, sector target values and sector target
weight for one sector. -/
def setSectorTargets (ptv : ℚ) (s : SectorEntry) : SectorEntry :=
  let newPositions := s.positions.map fun p =>
    { p with targetValue := p.targetAllocation / 100 * ptv }
  let stv := (newPositions.map Position.targetValue).sum
  { s with
    positions := newPositions
    targetValue := stv
    targetWeight := if ptv > 0 then stv / ptv * 100 else 0 }

/-- Loop body of `calculate_allocation_targets` (lines 630–732) for one
portfolio. -/
def calcEntryForPortfolio (builder : List (String × BuilderData))
    (targets : List TargetAllocation) (total_current_value : ℚ)
    (pdata : PortfolioData) : PortfolioEntry :=
  let portfolio_target_weight := portfolioWeightFor targets pdata.name
  let builder_data := builderDataFor builder pdata.name
  let effective_positions := effectivePositionsFor builder_data
  let base_sectors := pdata.sectors.map fun s =>
    ({ name := s.name, positions := s.positions, currentValue := s.currentValue,
       positionCount := s.positions.length } : SectorEntry)
  let count := currentPositionsCount pdata
  let sectors1 :=
    match placeholderEntry builder_data with
    | some php =>
      if count < effective_positions ∧
          ¬ (100 ≤ pyRound (totalRealWeight builder_data)) then
        base_sectors ++ [missingSector (php.weight.getD 0) (effective_positions - count)]
      else base_sectors
    | none => base_sectors
  let ptv := portfolio_target_weight / 100 * total_current_value
  { name := pdata.name, currentValue := pdata.currentValue,
    targetWeight := portfolio_target_weight,
    sectors := sectors1.map (setSectorTargets ptv),
    minPositions := builder_data.minPositions,
    desiredPositions := builder_data.desiredPositions,
    effectivePositions := effective_positions, targetValue := ptv }

/-- `AllocationService.calculate_allocation_targets` (lines 604–735). -/
def calculate_allocation_targets (portfolio_map : List PortfolioData)
    (portfolio_builder_data : List (String × BuilderData))
    (target_allocations : List TargetAllocation)
    (total_current_value : ℚ) : List PortfolioEntry :=
  portfolio_map.map
    (calcEntryForPortfolio portfolio_builder_data target_allocations total_current_value)

/-- Line 797–799: `pos.get('identifier') and pos.get('investment_type')
is not None` (Python truthiness: a missing or empty identifier fails). -/
def positionValid (p : Position) : Bool :=
  !(p.identifier.getD "").isEmpty && p.investment_type.isSome

/-- Lines 787–794: all non-placeholder positions of non-placeholder
sectors. -/
def collectAllPositions (entry : PortfolioEntry) : List Position :=
  (entry.sectors.filter fun s => !s.isPlaceholder).flatMap fun s =>
    s.positions.filter fun p => !p.isPlaceholder

/-- Line 827: `{pos['name']: pos for pos in all_positions_data}` — dict
comprehension, later entries win. -/
def dictLookupByName (data : List Position) (nm : String) : Option Position :=
  data.reverse.find? fun p => p.name == nm

/-- Lines 832–840: copy the capping metadata onto a sector position when
its name is in the lookup. -/
def mergePosition (data : List Position) (p : Position) : Position :=
  match dictLookupByName data p.name with
  | none => p
  | some augmented =>
    { p with
      is_capped := some augmented.cappedFlag
      unconstrained_target_value := some augmented.unconstrainedVal
      constrained_target_value := some augmented.constrainedVal
      applicable_rule := augmented.applicable_rule
      targetValue := augmented.constrainedVal }

/-- Lines 843–849: recompute a sector's target value and weight from its
(now constrained) positions. -/
def recomputeSectorTargets (ptv : ℚ) (s : SectorEntry) : SectorEntry :=
  let stv := (s.positions.map Position.targetValue).sum
  { s with
    targetValue := stv
    targetWeight := if ptv > 0 then stv / ptv * 100 else 0 }

/-- Loop body of
`calculate_allocation_targets_with_type_constraints` (lines 781–849) for
one portfolio entry. -/
def applyConstraintsToEntry (max_stock_pct max_etf_pct max_crypto_pct : ℚ)
    (entry : PortfolioEntry) : PortfolioEntry :=
  if entry.targetValue = 0 then entry
  else
    let valid_positions := (collectAllPositions entry).filter positionValid
    if valid_positions.isEmpty then entry
    else
      let all_positions_data :=
        (applyTypeConstraintsRecursive valid_positions entry.targetValue
          max_stock_pct max_etf_pct max_crypto_pct).fst
      let merged := entry.sectors.map fun s =>
        if s.isPlaceholder then s
        else { s with positions := s.positions.map (mergePosition all_positions_data) }
      { entry with sectors := merged.map fun s =>
          if s.isPlaceholder then s
          else recomputeSectorTargets entry.targetValue s }

/-- `AllocationService.calculate_allocation_targets_with_type_constraints`
(lines 737–852). -/
def calculate_allocation_targets_with_type_constraints
    (portfolio_map : List PortfolioData)
    (portfolio_builder_data : List (String × BuilderData))
    (target_allocations : List TargetAllocation)
    (total_current_value : ℚ) (rules : Option RulesDict) : List PortfolioEntry :=
  let max_stock_pct := match rules with
    | some r => r.maxPerStock.getD 2
    | none => 2
  let max_etf_pct := match rules with
    | some r => r.maxPerETF.getD 5
    | none => 5
  let max_crypto_pct := match rules with
    | some r => r.maxPerCrypto.getD 5
    | none => 5
  (calculate_allocation_targets portfolio_map portfolio_builder_data
      target_allocations total_current_value).map
    (applyConstraintsToEntry max_stock_pct max_etf_pct max_crypto_pct)

/-! ### Cash Deployment Calculator (`calculate_rebalancing`) and
allocation validation -/

/-- One current holding as consumed by the rebalancing modes.  `Decimal`
arithmetic is modelled exactly over `ℚ`. -/
structure CompanyHolding where
  id : String
  name : String
  identifier : String
  current_value : ℚ := 0
  price_eur : Option ℚ := none
deriving DecidableEq, Repr

/-- The `RebalancingRecommendation` dataclass (lines 192–201). -/
structure RebalancingRecommendation where
  company_name : String
  identifier : String
  current_value : ℚ
  target_value : ℚ
  amount_to_buy : ℚ
  shares_to_buy : ℚ
  current_price : ℚ
deriving DecidableEq, Repr

/-- The `AllocationRule` dataclass with its defaults (lines 183–189). -/
structure AllocationRule where
  max_stock_percentage : ℚ := 5
  max_etf_percentage : ℚ := 10
  max_sector_percentage : ℚ := 25
  max_country_percentage : ℚ := 10
deriving DecidableEq, Repr

/-- The two failure messages of `validate_allocations`, with their
interpolated numbers (lines 404 and 410); the f-string text itself is
not modelled. -/
inductive ValidationFailure where
  | sumNot100 (total : ℚ)
  | stockExceedsMax (pct maxPct : ℚ)
deriving DecidableEq, Repr

/-- `next((c for c in portfolio_data if c['id'] == company_id), None)`. -/
def findCompany (portfolio_data : List CompanyHolding) (cid : String) :
    Option CompanyHolding :=
  portfolio_data.find? fun co => co.id == cid

/-- Python truthiness of `company.get('price_eur')`: `None` and `0` are
falsy (lines 270, 322). -/
def priceTruthy (co : CompanyHolding) : Option ℚ :=
  match co.price_eur with
  | some pr => if pr = 0 then none else some pr
  | none => none

/-- `AllocationService._calculate_proportional` (lines 254–290). -/
def _calculate_proportional (portfolio_data : List CompanyHolding)
    (target_allocations : List (String × ℚ))
    (investment_amount : ℚ) : List RebalancingRecommendation :=
  target_allocations.filterMap fun ca =>
    match findCompany portfolio_data ca.fst with
    | none => none
    | some company =>
      match priceTruthy company with
      | none => none
      | some current_price =>
        let allocation_amount := investment_amount * (ca.snd / 100)
        some { company_name := company.name
               identifier := company.identifier
               current_value := company.current_value
               target_value := allocation_amount
               amount_to_buy := allocation_amount
               shares_to_buy := allocation_amount / current_price
               current_price := current_price }

/-- `AllocationService._calculate_target_weights` (lines 292–347). -/
def _calculate_target_weights (portfolio_data : List CompanyHolding)
    (target_allocations : List (String × ℚ))
    (investment_amount : ℚ) : List RebalancingRecommendation :=
  let current_total_value := (portfolio_data.map CompanyHolding.current_value).sum
  let new_total_value := current_total_value + investment_amount
  target_allocations.filterMap fun ca =>
    match findCompany portfolio_data ca.fst with
    | none => none
    | some company =>
      match priceTruthy company with
      | none => none
      | some current_price =>
        let current_value := company.current_value
        let target_value := new_total_value * (ca.snd / 100)
        let amount_to_buy := max 0 (target_value - current_value)
        if amount_to_buy > 0 then
          some { company_name := company.name
                 identifier := company.identifier
                 current_value := current_value
                 target_value := target_value
                 amount_to_buy := amount_to_buy
                 shares_to_buy := amount_to_buy / current_price
                 current_price := current_price }
        else none

/-- `AllocationService._calculate_equal_weight` (lines 349–385). -/
def _calculate_equal_weight (portfolio_data : List CompanyHolding)
    (investment_amount : ℚ) : List RebalancingRecommendation :=
  let valid_holdings := portfolio_data.filter fun co =>
    decide (co.price_eur.getD 0 > 0)
  if valid_holdings.isEmpty then []
  else
    let amount_per_holding := investment_amount / (valid_holdings.length : ℚ)
    valid_holdings.map fun company =>
      { company_name := company.name
        identifier := company.identifier
        current_value := company.current_value
        target_value := company.current_value + amount_per_holding
        amount_to_buy := amount_per_holding
        shares_to_buy := amount_per_holding / company.price_eur.getD 0
        current_price := company.price_eur.getD 0 }

/-- `AllocationService.calculate_rebalancing` (lines 215–252); the
`ValueError` of line 252 becomes an `Except.error`. -/
def calculate_rebalancing (portfolio_data : List CompanyHolding)
    (target_allocations : List (String × ℚ))
    (investment_amount : ℚ) (mode : String) :
    Except String (List RebalancingRecommendation) :=
  if mode = "proportional" then
    Except.ok (_calculate_proportional portfolio_data target_allocations investment_amount)
  else if mode = "target_weights" then
    Except.ok (_calculate_target_weights portfolio_data target_allocations investment_amount)
  else if mode = "equal_weight" then
    Except.ok (_calculate_equal_weight portfolio_data investment_amount)
  else Except.error ("Unknown allocation mode: " ++ mode)

/-- `AllocationService.validate_allocations` (lines 387–412). -/
def validate_allocations (rules : AllocationRule)
    (allocations : List (String × ℚ)) : Bool × Option ValidationFailure :=
  let total := (allocations.map Prod.snd).sum
  if |total - 100| > 1/100 then (false, some (ValidationFailure.sumNot100 total))
  else
    match allocations.find? fun ap => decide (ap.snd > rules.max_stock_percentage) with
    | some ap => (false, some (ValidationFailure.stockExceedsMax ap.snd rules.max_stock_percentage))
    | none => (true, none)

def c8X : CompanyHolding :=
  { id := "X", name := "X", identifier := "X", current_value := 8000,
    price_eur := some 100 }

def c8Y : CompanyHolding :=
  { id := "Y", name := "Y", identifier := "Y", current_value := 0,
    price_eur := some 50 }

def c4Pos : Position :=
  { name := "X"
    identifier := some "x"
    investment_type := some InvestmentType.Stock
    targetAllocation := 50
    currentValue := 100 }

def c4Map : List PortfolioData :=
  [{ name := "P"
     sectors := [{ name := "T", positions := [c4Pos], currentValue := 100 }]
     currentValue := 100 }]

def c4Targets : List TargetAllocation := [{ name := "P", allocation := 0 }]

def c7Pos : Position :=
  { name := "X"
    identifier := some "x"
    investment_type := some InvestmentType.Stock
    targetAllocation := 50
    currentValue := 100 }

def c7Pd : PortfolioData :=
  { name := "P"
    sectors := [{ name := "T", positions := [c7Pos], currentValue := 100 }]
    currentValue := 100 }

def c7Map : List PortfolioData := [c7Pd]

def c7Real : BuilderPosition := { companyName := some "X", weight := some (997/10) }

def c7Ph : BuilderPosition := { isPlaceholder := true, weight := some (3/10) }

def c7Builder : List (String × BuilderData) :=
  [("P", { minPositions := 0
           desiredPositions := some 2
           allocation := 100
           positions := [c7Real, c7Ph] })]

def c7Targets : List TargetAllocation := [{ name := "P", allocation := 100 }]

def c7WReal : BuilderPosition := { companyName := some "X", weight := some 50 }

def c7WPh : BuilderPosition := { isPlaceholder := true, weight := some 10 }

def c7WBuilder : List (String × BuilderData) :=
  [("P", { minPositions := 0
           desiredPositions := some 2
           allocation := 100
           positions := [c7WReal, c7WPh] })]

/-- A position the constraint stage skips: placeholder, falsy identifier,
or missing asset class (spec §4.3 preconditions). -/
def isSkippedPos (p : Position) : Bool :=
  p.isPlaceholder || (p.identifier.getD "").isEmpty || !p.investment_type.isSome

/-- The same portfolio entry with every skipped position removed — the
comparison input for the capacity half of the skip-correctness claim. -/
def removeSkipped (entry : PortfolioEntry) : PortfolioEntry :=
  { entry with sectors := entry.sectors.map fun s =>
      { s with positions := s.positions.filter fun p => !isSkippedPos p } }

def c6PosB : Position :=
  { name := "X"
    identifier := some "b"
    investment_type := none
    targetAllocation := 50
    currentValue := 50 }

def c6PosA : Position :=
  { name := "X"
    identifier := some "a"
    investment_type := some InvestmentType.Stock
    targetAllocation := 50
    currentValue := 50 }

def c6Map : List PortfolioData :=
  [{ name := "P"
     sectors := [{ name := "T", positions := [c6PosB, c6PosA], currentValue := 100 }]
     currentValue := 100 }]

def c6Targets : List TargetAllocation := [{ name := "P", allocation := 100 }]

def c6Rules : RulesDict := { maxPerStock := some 60 }

def c6WposA : Position :=
  { name := "A"
    identifier := some "a"
    investment_type := some InvestmentType.Stock
    targetValue := 50 }

def c6WposB : Position :=
  { name := "B"
    identifier := some "b"
    targetValue := 50 }

/-- The portfolio entry of the claim C6 witness: a valid stock "A" and a
type-less (skipped) position "B" with distinct names. -/
def c6WEntry : PortfolioEntry :=
  { name := "P"
    targetValue := 100
    sectors := [{ name := "T", positions := [c6WposA, c6WposB] }] }

/-! ### Generic list lemmas -/

theorem sum_filter_split {α : Type} (q : α → Bool) (h : α → ℚ) :
    ∀ l : List α,
      ((l.filter q).map h).sum + ((l.filter fun x => !q x).map h).sum = (l.map h).sum := by
  intro l
  induction l with
  | nil => simp
  | cons x xs ih =>
    by_cases hx : q x = true
    · simp [List.filter_cons, hx, ← ih]; ring
    · simp only [Bool.not_eq_true] at hx
      simp [List.filter_cons, hx, ← ih]; ring

theorem sum_map_le {α : Type} (f g : α → ℚ) :
    ∀ l : List α, (∀ x ∈ l, f x ≤ g x) → (l.map f).sum ≤ (l.map g).sum := by
  intro l
  induction l with
  | nil => simp
  | cons x xs ih =>
    intro h
    simp only [List.map_cons, List.sum_cons]
    have h1 := h x (by simp)
    have h2 := ih fun y hy => h y (by simp [hy])
    linarith

theorem sum_map_nonneg {α : Type} (f : α → ℚ) :
    ∀ l : List α, (∀ x ∈ l, 0 ≤ f x) → 0 ≤ (l.map f).sum := by
  intro l
  induction l with
  | nil => simp
  | cons x xs ih =>
    intro h
    simp only [List.map_cons, List.sum_cons]
    have h1 := h x (by simp)
    have h2 := ih fun y hy => h y (by simp [hy])
    linarith

theorem forall₂_map_self {α β : Type} (R : α → β → Prop) (g : α → β) :
    ∀ l : List α, (∀ x ∈ l, R x (g x)) → List.Forall₂ R l (l.map g) := by
  intro l
  induction l with
  | nil => intro _; simp
  | cons x xs ih =>
    intro h
    exact List.Forall₂.cons (h x (by simp)) (ih fun y hy => h y (by simp [hy]))

theorem map_eq_self_of {α : Type} (g : α → α) :
    ∀ l : List α, (∀ x ∈ l, g x = x) → l.map g = l := by
  intro l
  induction l with
  | nil => intro _; rfl
  | cons x xs ih =>
    intro h
    simp only [List.map_cons]
    rw [h x (by simp), ih fun y hy => h y (by simp [hy])]

theorem filter_map_comm {α : Type} (g : α → α) (q : α → Bool)
    (hq : ∀ x, q (g x) = q x) :
    ∀ l : List α, (l.map g).filter q = (l.filter q).map g := by
  intro l
  induction l with
  | nil => rfl
  | cons x xs ih =>
    by_cases hx : q x = true
    · simp [List.filter_cons, hq, hx, ih]
    · simp only [Bool.not_eq_true] at hx
      simp [List.filter_cons, hq, hx, ih]

theorem sum_map_mul_right {α : Type} (f : α → ℚ) (k : ℚ) :
    ∀ l : List α, (l.map fun x => f x * k).sum = (l.map f).sum * k := by
  intro l
  induction l with
  | nil => simp
  | cons x xs ih => simp [ih]; ring

theorem sum_map_const {α : Type} (k : ℚ) :
    ∀ l : List α, (l.map fun _ => k).sum = (l.length : ℚ) * k := by
  intro l
  induction l with
  | nil => simp
  | cons x xs ih => simp [ih]; ring

/-! ### Lemmas about the cap check `capOne` -/

/-- A position that was already capped is left untouched by the pass. -/
theorem capOne_of_capped {V s e c : ℚ} {p : Position} (h : p.cappedFlag = true) :
    capOne V s e c p = (p, false) := by
  unfold capOne
  simp [h]

/-- A typed, uncapped position either passes its cap check unchanged or
comes back capped exactly at its cap value with its rule recorded. -/
theorem capOne_typed_cases (V s e c : ℚ) (p : Position) (t : InvestmentType)
    (ht : p.investment_type = some t) (hc : p.cappedFlag = false) :
    (¬ p.constrainedVal / V * 100 > capOf s e c t ∧ capOne V s e c p = (p, false)) ∨
    (p.constrainedVal / V * 100 > capOf s e c t ∧
      capOne V s e c p =
        ({ p with
            is_capped := some true
            constrained_target_value := some (capOf s e c t / 100 * V)
            applicable_rule := some (ruleOf t) }, true)) := by
  unfold capOne
  simp only [hc, Bool.false_eq_true, if_false, ht]
  by_cases hgt : p.constrainedVal / V * 100 > capOf s e c t
  · right
    exact ⟨hgt, by simp [hgt]⟩
  · left
    exact ⟨hgt, by simp [hgt]⟩

theorem capOne_investment_type (V s e c : ℚ) (p : Position) :
    (capOne V s e c p).fst.investment_type = p.investment_type := by
  by_cases hc : p.cappedFlag = true
  · rw [capOne_of_capped hc]
  · simp only [Bool.not_eq_true] at hc
    rcases ht : p.investment_type with _ | t
    · unfold capOne
      simp [hc, ht]
    · rcases capOne_typed_cases V s e c p t ht hc with ⟨_, h⟩ | ⟨_, h⟩ <;> simp [h, ht]

theorem capOne_name (V s e c : ℚ) (p : Position) :
    (capOne V s e c p).fst.name = p.name := by
  by_cases hc : p.cappedFlag = true
  · rw [capOne_of_capped hc]
  · simp only [Bool.not_eq_true] at hc
    rcases ht : p.investment_type with _ | t
    · unfold capOne
      simp [hc, ht]
    · rcases capOne_typed_cases V s e c p t ht hc with ⟨_, h⟩ | ⟨_, h⟩ <;> simp [h]

theorem capOne_unconstrained (V s e c : ℚ) (p : Position) :
    (capOne V s e c p).fst.unconstrained_target_value = p.unconstrained_target_value := by
  by_cases hc : p.cappedFlag = true
  · rw [capOne_of_capped hc]
  · simp only [Bool.not_eq_true] at hc
    rcases ht : p.investment_type with _ | t
    · unfold capOne
      simp [hc, ht]
    · rcases capOne_typed_cases V s e c p t ht hc with ⟨_, h⟩ | ⟨_, h⟩ <;> simp [h]

/-- If the pass flag is `false` on a typed position, it came back
unchanged. -/
theorem capOne_of_flag_false {V s e c : ℚ} {p : Position}
    (ht : p.investment_type.isSome = true)
    (h : (capOne V s e c p).snd = false) : (capOne V s e c p).fst = p := by
  by_cases hc : p.cappedFlag = true
  · rw [capOne_of_capped hc]
  · simp only [Bool.not_eq_true] at hc
    rcases htt : p.investment_type with _ | t
    · rw [htt] at ht; simp at ht
    · rcases capOne_typed_cases V s e c p t htt hc with ⟨_, heq⟩ | ⟨_, heq⟩
      · rw [heq]
      · rw [heq] at h
        simp at h

/-- An uncapped, typed position that does not trigger the flag satisfies
its cap check. -/
theorem capOne_flag_false_le {V s e c : ℚ} {p : Position} {t : InvestmentType}
    (ht : p.investment_type = some t) (hc : p.cappedFlag = false)
    (h : (capOne V s e c p).snd = false) :
    p.constrainedVal / V * 100 ≤ capOf s e c t := by
  rcases capOne_typed_cases V s e c p t ht hc with ⟨hle, _⟩ | ⟨_, heq⟩
  · exact not_lt.mp hle
  · rw [heq] at h; simp at h

/-- If the flag fires on an uncapped typed position, the position comes
back capped exactly at its cap value, carrying its rule. -/
theorem capOne_flag_true {V s e c : ℚ} {p : Position} {t : InvestmentType}
    (ht : p.investment_type = some t) (hc : p.cappedFlag = false)
    (h : (capOne V s e c p).snd = true) :
    (capOne V s e c p).fst =
      { p with
        is_capped := some true
        constrained_target_value := some (capOf s e c t / 100 * V)
        applicable_rule := some (ruleOf t) } := by
  rcases capOne_typed_cases V s e c p t ht hc with ⟨_, heq⟩ | ⟨_, heq⟩
  · rw [heq] at h; simp at h
  · rw [heq]

/-- When the portfolio value is positive, a cap bound in percent form
translates into a bound on the raw constrained value. -/
theorem pct_le_of_lt {V x k : ℚ} (hV : 0 < V) (h : k < x / V * 100) :
    k / 100 * V ≤ x := by
  have h100 : (0:ℚ) < 100 := by norm_num
  have h1 : k < x * 100 / V := by
    have hx : x / V * 100 = x * 100 / V := by ring
    linarith [hx ▸ h]
  have h2 : k * V < x * 100 := (lt_div_iff₀ hV).mp h1
  have h3 : k * V / 100 < x := (div_lt_iff₀ h100).mpr (by linarith)
  have hx : k / 100 * V = k * V / 100 := by ring
  linarith [hx ▸ h3]

/-- The pass never increases a typed position's constrained value
(capping is strictly downward when the portfolio value is positive). -/
theorem capOne_le {V s e c : ℚ} {p : Position} (hV : 0 < V)
    (ht : p.investment_type.isSome = true) :
    (capOne V s e c p).fst.constrainedVal ≤ p.constrainedVal := by
  by_cases hc : p.cappedFlag = true
  · rw [capOne_of_capped hc]
  · simp only [Bool.not_eq_true] at hc
    rcases htt : p.investment_type with _ | t
    · rw [htt] at ht; simp at ht
    · rcases capOne_typed_cases V s e c p t htt hc with
        ⟨_, heq⟩ | ⟨hgt, heq⟩
      · rw [heq]
      · rw [heq]
        have hx : capOf s e c t / 100 * V ≤ p.constrainedVal := pct_le_of_lt hV hgt
        simpa [Position.constrainedVal] using hx

/-! ### Lemmas about `redistribute` -/

theorem condUpdate_of_capped (f : Position → ℚ) (p : Position)
    (h : p.cappedFlag = true) : condUpdate f p = p := by
  simp [condUpdate, h]

theorem condUpdate_of_uncapped (f : Position → ℚ) (p : Position)
    (h : p.cappedFlag = false) :
    condUpdate f p = { p with constrained_target_value := some (f p) } := by
  simp [condUpdate, h]

theorem condUpdate_cappedFlag (f : Position → ℚ) (p : Position) :
    (condUpdate f p).cappedFlag = p.cappedFlag := by
  cases hb : p.cappedFlag
  · rw [condUpdate_of_uncapped f p hb]
    exact hb
  · rw [condUpdate_of_capped f p hb]
    exact hb

theorem condUpdate_investment_type (f : Position → ℚ) (p : Position) :
    (condUpdate f p).investment_type = p.investment_type := by
  cases hb : p.cappedFlag
  · rw [condUpdate_of_uncapped f p hb]
  · rw [condUpdate_of_capped f p hb]

theorem condUpdate_name (f : Position → ℚ) (p : Position) :
    (condUpdate f p).name = p.name := by
  cases hb : p.cappedFlag
  · rw [condUpdate_of_uncapped f p hb]
  · rw [condUpdate_of_capped f p hb]

theorem condUpdate_unconstrained (f : Position → ℚ) (p : Position) :
    (condUpdate f p).unconstrained_target_value = p.unconstrained_target_value := by
  cases hb : p.cappedFlag
  · rw [condUpdate_of_uncapped f p hb]
  · rw [condUpdate_of_capped f p hb]

theorem condUpdate_constrainedVal_of_uncapped (f : Position → ℚ) (p : Position)
    (h : p.cappedFlag = false) : (condUpdate f p).constrainedVal = f p := by
  rw [condUpdate_of_uncapped f p h]
  rfl

/-- Splitting a sum over a position list into its capped and uncapped
parts. -/
theorem sum_split_capped (h : Position → ℚ) :
    ∀ l : List Position,
      ((l.filter fun p => p.cappedFlag).map h).sum +
        ((l.filter fun p => !p.cappedFlag).map h).sum = (l.map h).sum := by
  intro l
  induction l with
  | nil => simp
  | cons x xs ih =>
    by_cases hx : x.cappedFlag = true
    · simp [List.filter_cons, hx, ← ih]
      ring
    · simp only [Bool.not_eq_true] at hx
      simp [List.filter_cons, hx, ← ih]
      ring

/-- A `condUpdate` map keeps the capped positions' total untouched. -/
theorem cappedSum_map_condUpdate (f : Position → ℚ) (l : List Position) :
    ((l.filter fun p => p.cappedFlag).map fun p => (condUpdate f p).constrainedVal).sum
      = cappedSum l := by
  unfold cappedSum
  congr 1
  apply List.map_congr_left
  intro p hp
  have hpc : p.cappedFlag = true := by
    simpa using (List.mem_filter.mp hp).2
  rw [condUpdate_of_capped f p hpc]

/-- `redistribute` is an element-wise map that fixes capped positions and
touches only the `constrained_target_value` of uncapped ones. -/
theorem redistribute_exists_map (V : ℚ) (l : List Position) :
    ∃ g : Position → Position, redistribute V l = l.map g ∧
      (∀ p, p.cappedFlag = true → g p = p) ∧
      (∀ p, (g p).cappedFlag = p.cappedFlag) ∧
      (∀ p, (g p).investment_type = p.investment_type) ∧
      (∀ p, (g p).name = p.name) ∧
      (∀ p, (g p).unconstrained_target_value = p.unconstrained_target_value) := by
  have hid : ∀ m : List Position, ∃ g : Position → Position, m = m.map g ∧
      (∀ p, p.cappedFlag = true → g p = p) ∧
      (∀ p, (g p).cappedFlag = p.cappedFlag) ∧
      (∀ p, (g p).investment_type = p.investment_type) ∧
      (∀ p, (g p).name = p.name) ∧
      (∀ p, (g p).unconstrained_target_value = p.unconstrained_target_value) := by
    intro m
    exact ⟨id, by simp, fun p _ => rfl, fun p => rfl, fun p => rfl, fun p => rfl, fun p => rfl⟩
  have hcu : ∀ f : Position → ℚ,
      (∀ p, p.cappedFlag = true → condUpdate f p = p) ∧
      (∀ p, (condUpdate f p).cappedFlag = p.cappedFlag) ∧
      (∀ p, (condUpdate f p).investment_type = p.investment_type) ∧
      (∀ p, (condUpdate f p).name = p.name) ∧
      (∀ p, (condUpdate f p).unconstrained_target_value = p.unconstrained_target_value) :=
    fun f => ⟨fun p h => condUpdate_of_capped f p h, condUpdate_cappedFlag f,
      condUpdate_investment_type f, condUpdate_name f, condUpdate_unconstrained f⟩
  unfold redistribute
  by_cases h1 : (l.filter fun p => !p.cappedFlag).isEmpty
  · simpa [h1] using hid l
  · simp only [h1, Bool.false_eq_true, if_false]
    by_cases h2 : V - cappedSum l > 0
    · simp only [h2, if_true]
      by_cases h3 : ((l.filter fun p => !p.cappedFlag).map Position.unconstrainedVal).sum > 0
      · simp only [h3, if_true]
        obtain ⟨hc1, hc2, hc3, hc4, hc5⟩ := hcu fun p =>
          p.unconstrainedVal /
            ((l.filter fun q => !q.cappedFlag).map Position.unconstrainedVal).sum *
            (V - cappedSum l)
        exact ⟨_, rfl, hc1, hc2, hc3, hc4, hc5⟩
      · simp only [h3, if_false]
        obtain ⟨hc1, hc2, hc3, hc4, hc5⟩ := hcu fun _ =>
          (V - cappedSum l) / ((l.filter fun q => !q.cappedFlag).length : ℚ)
        exact ⟨_, rfl, hc1, hc2, hc3, hc4, hc5⟩
    · simp only [h2, if_false]
      simpa using hid l

/-- A fired redistribution restores the total constrained value to
exactly `V`: the uncapped positions together receive exactly the
available value. -/
theorem redistribute_map_sum (V : ℚ) (f : Position → ℚ) (l : List Position)
    (hsum : ((l.filter fun p => !p.cappedFlag).map fun p => f p).sum = V - cappedSum l) :
    sumConstrained (l.map (condUpdate f)) = V := by
  have hmm : sumConstrained (l.map (condUpdate f))
      = (l.map fun p => (condUpdate f p).constrainedVal).sum := by
    rw [sumConstrained, List.map_map]
    rfl
  have hsplit := sum_split_capped (fun p => (condUpdate f p).constrainedVal) l
  have hcap := cappedSum_map_condUpdate f l
  have huncap : ((l.filter fun p => !p.cappedFlag).map fun p =>
      (condUpdate f p).constrainedVal).sum = V - cappedSum l := by
    rw [← hsum]
    congr 1
    apply List.map_congr_left
    intro p hp
    have hpc : p.cappedFlag = false := by
      have := (List.mem_filter.mp hp).2
      simpa using this
    exact condUpdate_constrainedVal_of_uncapped f p hpc
  rw [hmm, ← hsplit, hcap, huncap]
  ring

/-- After a redistribution the total constrained value is at most
`max V` (previous total): either it fires and restores exactly `V`, or it
leaves the list untouched. -/
theorem redistribute_sum_le (V : ℚ) (l : List Position) :
    sumConstrained (redistribute V l) ≤ max V (sumConstrained l) := by
  unfold redistribute
  by_cases h1 : (l.filter fun p => !p.cappedFlag).isEmpty
  · simp [h1, le_max_right]
  · simp only [h1, Bool.false_eq_true, if_false]
    have hlen : (l.filter fun p => !p.cappedFlag) ≠ [] := by
      intro hnil
      rw [hnil] at h1
      simp at h1
    by_cases h2 : V - cappedSum l > 0
    · simp only [h2, if_true]
      by_cases h3 : ((l.filter fun p => !p.cappedFlag).map Position.unconstrainedVal).sum > 0
      · simp only [h3, if_true]
        have hs : ((l.filter fun p => !p.cappedFlag).map fun p =>
            p.unconstrainedVal /
              ((l.filter fun q => !q.cappedFlag).map Position.unconstrainedVal).sum *
              (V - cappedSum l)).sum = V - cappedSum l := by
          have hstep : ((l.filter fun p => !p.cappedFlag).map fun p =>
              p.unconstrainedVal /
                ((l.filter fun q => !q.cappedFlag).map Position.unconstrainedVal).sum *
                (V - cappedSum l))
              = ((l.filter fun p => !p.cappedFlag).map fun p =>
                p.unconstrainedVal *
                  ((V - cappedSum l) /
                    ((l.filter fun q => !q.cappedFlag).map Position.unconstrainedVal).sum)) :=
            List.map_congr_left fun p _ => by ring
          rw [hstep, sum_map_mul_right, mul_comm, div_mul_cancel₀ _ (ne_of_gt h3)]
        rw [redistribute_map_sum V _ l hs]
        exact le_max_left _ _
      · simp only [h3, if_false]
        have hn : (((l.filter fun p => !p.cappedFlag).length : ℚ)) ≠ 0 := by
          simp only [ne_eq, Nat.cast_eq_zero, List.length_eq_zero]
          exact hlen
        have hs : ((l.filter fun p => !p.cappedFlag).map fun _ =>
            (V - cappedSum l) / ((l.filter fun q => !q.cappedFlag).length : ℚ)).sum
            = V - cappedSum l := by
          rw [sum_map_const, mul_comm, div_mul_cancel₀ _ hn]
        rw [redistribute_map_sum V _ l hs]
        exact le_max_left _ _
    · simp [h2, le_max_right]

/-! ### Characterisation of one call body (`applyStep`) -/

/-- Unfolding the structural recursion one step. -/
theorem aux_succ (V s e c : ℚ) (fuel : ℕ) (isFirst : Bool) (l : List Position) :
    applyTypeConstraintsAux V s e c (fuel + 1) isFirst l =
      match applyStep V s e c isFirst l with
      | Sum.inl result => result
      | Sum.inr next => applyTypeConstraintsAux V s e c fuel false next := rfl

/-- Zero-out after metadata initialisation coincides with direct
zero-out: line 59's `pos.get('targetValue', 0)` is untouched by the
iteration-0 initialisation. -/
theorem zeroOut_init (p : Position) :
    zeroOutPosition (initMetaPosition p) = zeroOutPosition p := rfl

/-- A first-iteration call body is the non-first body on the
initialised list. -/
theorem applyStep_true (V s e c : ℚ) (l : List Position) :
    applyStep V s e c true l = applyStep V s e c false (l.map initMetaPosition) := by
  unfold applyStep
  by_cases h0 : V ≤ 0
  · simp only [h0, if_true, List.map_map]
    have : zeroOutPosition ∘ initMetaPosition = zeroOutPosition := by
      funext p
      exact zeroOut_init p
    rw [this]
  · simp only [h0, if_false, if_true, Bool.false_eq_true]

/-- Which `return` an `.inl` result of the (non-first) call body came
from, and what it carries. -/
theorem applyStep_false_inl (V s e c : ℚ) (l out : List Position) (k : ExitKind)
    (h : applyStep V s e c false l = Sum.inl (out, k)) :
    (k = ExitKind.zeroPortfolioValue ∧ V ≤ 0 ∧ out = l.map zeroOutPosition) ∨
    (k = ExitKind.allCapped ∧ ¬ V ≤ 0 ∧ (∀ p ∈ l, p.cappedFlag = true) ∧ out = l) ∨
    (k = ExitKind.noAvailableValue ∧ ¬ V ≤ 0 ∧ V - cappedSum l ≤ 0 ∧ out = l) ∨
    (k = ExitKind.converged ∧ ¬ V ≤ 0 ∧ l ≠ [] ∧
      (∀ p ∈ l, (capOne V s e c p).snd = false) ∧
      out = l.map fun p => (capOne V s e c p).fst) := by
  unfold applyStep at h
  by_cases h0 : V ≤ 0
  · simp only [h0, if_true, Sum.inl.injEq, Prod.mk.injEq] at h
    exact Or.inl ⟨h.2.symm, h0, h.1.symm⟩
  · simp only [h0, if_false, Bool.false_eq_true] at h
    by_cases h1 : (l.filter fun p => !p.cappedFlag).isEmpty
    · simp only [h1, if_true, Sum.inl.injEq, Prod.mk.injEq] at h
      refine Or.inr (Or.inl ⟨h.2.symm, h0, ?_, h.1.symm⟩)
      intro p hp
      have := List.filter_eq_nil_iff.mp (List.isEmpty_iff.mp h1) p hp
      simpa using this
    · simp only [h1, if_false, Bool.false_eq_true] at h
      by_cases h2 : V - cappedSum l ≤ 0
      · simp only [h2, if_true, Sum.inl.injEq, Prod.mk.injEq] at h
        exact Or.inr (Or.inr (Or.inl ⟨h.2.symm, h0, h2, h.1.symm⟩))
      · simp only [h2, if_false] at h
        by_cases h3 : (l.any fun p => (capOne V s e c p).snd) = true
        · simp [h3] at h
        · simp only [h3, if_false, Bool.false_eq_true, Sum.inl.injEq, Prod.mk.injEq] at h
          refine Or.inr (Or.inr (Or.inr ⟨h.2.symm, h0, ?_, ?_, h.1.symm⟩))
          · intro hnil
            rw [hnil] at h1
            simp at h1
          · intro p hp
            have := List.any_eq_false.mp (Bool.not_eq_true _ ▸ h3) p hp
            simpa using this

/-- Data carried by an `.inr` (recurse) result of the call body. -/
theorem applyStep_false_inr (V s e c : ℚ) (l next : List Position)
    (h : applyStep V s e c false l = Sum.inr next) :
    ¬ V ≤ 0 ∧ (l.filter fun p => !p.cappedFlag) ≠ [] ∧ 0 < V - cappedSum l ∧
    (∃ p ∈ l, (capOne V s e c p).snd = true) ∧
    next = redistribute V (l.map fun p => (capOne V s e c p).fst) := by
  unfold applyStep at h
  by_cases h0 : V ≤ 0
  · simp [h0] at h
  · simp only [h0, if_false, Bool.false_eq_true] at h
    by_cases h1 : (l.filter fun p => !p.cappedFlag).isEmpty
    · simp [h1] at h
    · simp only [h1, if_false, Bool.false_eq_true] at h
      by_cases h2 : V - cappedSum l ≤ 0
      · simp [h2] at h
      · simp only [h2, if_false] at h
        by_cases h3 : (l.any fun p => (capOne V s e c p).snd) = true
        · simp only [h3, if_true, Sum.inr.injEq] at h
          refine ⟨h0, ?_, lt_of_not_ge (by simpa using h2), ?_, h.symm⟩
          · intro hnil
            rw [hnil] at h1
            simp at h1
          · obtain ⟨p, hp, hps⟩ := List.any_eq_true.mp h3
            exact ⟨p, hp, by simpa using hps⟩
        · simp [h3] at h

theorem typedAll_map_capOne (V s e c : ℚ) (l : List Position)
    (hT : TypedAll l) : TypedAll (l.map fun p => (capOne V s e c p).fst) := by
  intro p' hp'
  obtain ⟨p, hp, rfl⟩ := List.mem_map.mp hp'
  rw [capOne_investment_type]
  exact hT p hp

theorem typedAll_redistribute (V : ℚ) (l : List Position)
    (hT : TypedAll l) : TypedAll (redistribute V l) := by
  obtain ⟨g, hg, _, _, hgt, _, _⟩ := redistribute_exists_map V l
  rw [hg]
  intro p' hp'
  obtain ⟨p, hp, rfl⟩ := List.mem_map.mp hp'
  rw [hgt]
  exact hT p hp

theorem cappedOK_map_capOne (V s e c : ℚ) (l : List Position)
    (hT : TypedAll l) (hOK : CappedOK V s e c l) :
    CappedOK V s e c (l.map fun p => (capOne V s e c p).fst) := by
  intro p' hp' hc'
  obtain ⟨p, hp, rfl⟩ := List.mem_map.mp hp'
  by_cases hc : p.cappedFlag = true
  · rw [capOne_of_capped hc] at hc' ⊢
    exact hOK p hp hc'
  · simp only [Bool.not_eq_true] at hc
    obtain ⟨t, ht⟩ := Option.isSome_iff_exists.mp (hT p hp)
    by_cases hs2 : (capOne V s e c p).snd = true
    · rw [capOne_flag_true ht hc hs2]
      exact ⟨t, ht, rfl⟩
    · simp only [Bool.not_eq_true] at hs2
      rw [capOne_of_flag_false (hT p hp) hs2] at hc'
      rw [hc'] at hc
      simp at hc

theorem cappedOK_redistribute (V s e c : ℚ) (l : List Position)
    (hOK : CappedOK V s e c l) : CappedOK V s e c (redistribute V l) := by
  obtain ⟨g, hg, hgid, hgflag, _, _, _⟩ := redistribute_exists_map V l
  rw [hg]
  intro p' hp' hc'
  obtain ⟨p, hp, rfl⟩ := List.mem_map.mp hp'
  rw [hgflag] at hc'
  rw [hgid p hc']
  exact hOK p hp hc'

theorem names_map_of (g : Position → Position)
    (hg : ∀ p, (g p).name = p.name) (l : List Position) :
    (l.map g).map Position.name = l.map Position.name := by
  rw [List.map_map]
  apply List.map_congr_left
  intro p _
  exact hg p

/-- The iteration never renames, reorders, drops or adds positions. -/
theorem aux_names (V s e c : ℚ) :
    ∀ fuel (l : List Position),
      ((applyTypeConstraintsAux V s e c fuel false l).fst).map Position.name
        = l.map Position.name := by
  intro fuel
  induction fuel with
  | zero => intro l; rfl
  | succ n ih =>
    intro l
    rw [aux_succ]
    cases happ : applyStep V s e c false l with
    | inl r =>
      obtain ⟨out, k⟩ := r
      simp only
      rcases applyStep_false_inl V s e c l out k happ with
        ⟨_, _, hout⟩ | ⟨_, _, _, hout⟩ | ⟨_, _, _, hout⟩ | ⟨_, _, _, _, hout⟩
      · rw [hout]
        exact names_map_of zeroOutPosition (fun p => rfl) l
      · rw [hout]
      · rw [hout]
      · rw [hout]
        exact names_map_of _ (fun p => capOne_name V s e c p) l
    | inr next =>
      obtain ⟨_, _, _, _, hnext⟩ := applyStep_false_inr V s e c l next happ
      simp only
      rw [ih next, hnext]
      obtain ⟨g, hg, _, _, _, hgname, _⟩ :=
        redistribute_exists_map V (l.map fun p => (capOne V s e c p).fst)
      rw [hg, names_map_of g hgname, names_map_of _ (fun p => capOne_name V s e c p) l]

theorem aux_length (V s e c : ℚ) (fuel : ℕ) (l : List Position) :
    (applyTypeConstraintsAux V s e c fuel false l).fst.length = l.length := by
  have h := aux_names V s e c fuel l
  have h1 := congrArg List.length h
  simpa using h1

/-- Master lemma: at a `converged` or `allCapped` exit every position is
typed and satisfies its cap (capped ones exactly, uncapped ones by the
percentage check); a `converged` exit moreover has a non-empty list. -/
theorem aux_false_conv (V s e c : ℚ) (hV : 0 < V) :
    ∀ fuel (l : List Position), TypedAll l → CappedOK V s e c l →
      (((applyTypeConstraintsAux V s e c fuel false l).snd = ExitKind.converged ∨
        (applyTypeConstraintsAux V s e c fuel false l).snd = ExitKind.allCapped) →
        ConvState V s e c (applyTypeConstraintsAux V s e c fuel false l).fst) ∧
      ((applyTypeConstraintsAux V s e c fuel false l).snd = ExitKind.converged →
        (applyTypeConstraintsAux V s e c fuel false l).fst ≠ []) := by
  intro fuel
  induction fuel with
  | zero =>
    intro l _ _
    constructor
    · intro h
      rcases h with h | h <;> simp [applyTypeConstraintsAux] at h
    · intro h
      simp [applyTypeConstraintsAux] at h
  | succ n ih =>
    intro l hT hOK
    rw [aux_succ]
    cases happ : applyStep V s e c false l with
    | inl r =>
      obtain ⟨out, k⟩ := r
      simp only
      rcases applyStep_false_inl V s e c l out k happ with
        ⟨hk, hv, hout⟩ | ⟨hk, _, hall, hout⟩ | ⟨hk, _, _, hout⟩ | ⟨hk, _, hne, hflags, hout⟩
      · exact absurd hv (not_le.mpr hV)
      · constructor
        · intro _
          subst hout hk
          intro p hp
          obtain ⟨t, ht, hconstr⟩ := hOK p hp (hall p hp)
          exact ⟨t, ht, Or.inl ⟨hall p hp, hconstr⟩⟩
        · intro hkk
          rw [hk] at hkk
          cases hkk
      · constructor
        · intro hkk
          rw [hk] at hkk
          rcases hkk with hkk | hkk <;> cases hkk
        · intro hkk
          rw [hk] at hkk
          cases hkk
      · have hout2 : out = l := by
          rw [hout]
          exact map_eq_self_of _ l fun p hp => capOne_of_flag_false (hT p hp) (hflags p hp)
        constructor
        · intro _
          subst hout2
          intro p hp
          obtain ⟨t, ht⟩ := Option.isSome_iff_exists.mp (hT p hp)
          by_cases hc : p.cappedFlag = true
          · obtain ⟨t2, ht2, hconstr⟩ := hOK p hp hc
            exact ⟨t2, ht2, Or.inl ⟨hc, hconstr⟩⟩
          · simp only [Bool.not_eq_true] at hc
            exact ⟨t, ht, Or.inr ⟨hc, capOne_flag_false_le ht hc (hflags p hp)⟩⟩
        · intro _
          rw [hout2]
          exact hne
    | inr next =>
      obtain ⟨_, _, _, _, hnext⟩ := applyStep_false_inr V s e c l next happ
      simp only
      have hTn : TypedAll next := by
        rw [hnext]
        exact typedAll_redistribute V _ (typedAll_map_capOne V s e c l hT)
      have hOKn : CappedOK V s e c next := by
        rw [hnext]
        exact cappedOK_redistribute V s e c _ (cappedOK_map_capOne V s e c l hT hOK)
      exact ih next hTn hOKn

/-- The total constrained value never exceeds
`max V` (initial total): passes only shrink values, redistributions
restore exactly `V`. -/
theorem aux_false_sum (V s e c : ℚ) (hV : 0 < V) :
    ∀ fuel (l : List Position), TypedAll l →
      sumConstrained (applyTypeConstraintsAux V s e c fuel false l).fst
        ≤ max V (sumConstrained l) := by
  intro fuel
  induction fuel with
  | zero =>
    intro l _
    exact le_max_right _ _
  | succ n ih =>
    intro l hT
    rw [aux_succ]
    cases happ : applyStep V s e c false l with
    | inl r =>
      obtain ⟨out, k⟩ := r
      simp only
      rcases applyStep_false_inl V s e c l out k happ with
        ⟨_, hv, _⟩ | ⟨_, _, _, hout⟩ | ⟨_, _, _, hout⟩ | ⟨_, _, _, hflags, hout⟩
      · exact absurd hv (not_le.mpr hV)
      · rw [hout]
        exact le_max_right _ _
      · rw [hout]
        exact le_max_right _ _
      · rw [hout, map_eq_self_of _ l fun p hp => capOne_of_flag_false (hT p hp) (hflags p hp)]
        exact le_max_right _ _
    | inr next =>
      obtain ⟨_, _, _, _, hnext⟩ := applyStep_false_inr V s e c l next happ
      simp only
      have hTn : TypedAll next := by
        rw [hnext]
        exact typedAll_redistribute V _ (typedAll_map_capOne V s e c l hT)
      have h1 := ih next hTn
      have h2 : sumConstrained next ≤ max V (sumConstrained l) := by
        rw [hnext]
        have h3 := redistribute_sum_le V (l.map fun p => (capOne V s e c p).fst)
        have h4 : sumConstrained (l.map fun p => (capOne V s e c p).fst)
            ≤ sumConstrained l := by
          unfold sumConstrained
          rw [List.map_map]
          apply sum_map_le
          intro p hp
          exact capOne_le hV (hT p hp)
        calc sumConstrained (redistribute V (l.map fun p => (capOne V s e c p).fst))
            ≤ max V (sumConstrained (l.map fun p => (capOne V s e c p).fst)) := h3
          _ ≤ max V (sumConstrained l) := max_le_max le_rfl h4
      calc sumConstrained (applyTypeConstraintsAux V s e c n false next).fst
          ≤ max V (sumConstrained next) := h1
        _ ≤ max V (max V (sumConstrained l)) := max_le_max le_rfl h2
        _ = max V (sumConstrained l) := by rw [← max_assoc, max_self]

theorem get_map_pos (g : Position → Position) (l : List Position) (j : ℕ)
    (hj : j < l.length) (hj2 : j < (l.map g).length) :
    (l.map g).get ⟨j, hj2⟩ = g (l.get ⟨j, hj⟩) := by
  simp

/-- Monotonic capping: once a position is capped, every later state of
the iteration keeps it byte-for-byte unchanged. -/
theorem aux_capped_persist (V s e c : ℚ) (hV : 0 < V) :
    ∀ fuel (l : List Position) (j : ℕ) (hj : j < l.length),
      (l.get ⟨j, hj⟩).cappedFlag = true →
      ∀ hj2 : j < (applyTypeConstraintsAux V s e c fuel false l).fst.length,
        (applyTypeConstraintsAux V s e c fuel false l).fst.get ⟨j, hj2⟩
          = l.get ⟨j, hj⟩ := by
  intro fuel
  induction fuel with
  | zero =>
    intro l j hj _ hj2
    rfl
  | succ n ih =>
    intro l j hj hcap
    rw [aux_succ]
    cases happ : applyStep V s e c false l with
    | inl r =>
      obtain ⟨out, k⟩ := r
      simp only
      rcases applyStep_false_inl V s e c l out k happ with
        ⟨_, hv, _⟩ | ⟨_, _, _, hout⟩ | ⟨_, _, _, hout⟩ | ⟨_, _, _, _, hout⟩
      · intro hj2
        exact absurd hv (not_le.mpr hV)
      · subst hout
        intro hj2
        rfl
      · subst hout
        intro hj2
        rfl
      · subst hout
        intro hj2
        have hjm : j < l.length := hj
        rw [get_map_pos _ l j hjm hj2, capOne_of_capped hcap]
    | inr next =>
      simp only
      intro hj2
      obtain ⟨_, _, _, _, hnext⟩ := applyStep_false_inr V s e c l next happ
      obtain ⟨g, hg, hgid, hgflag, _, _, _⟩ :=
        redistribute_exists_map V (l.map fun p => (capOne V s e c p).fst)
      have hnext2 : next = l.map fun p => g ((capOne V s e c p).fst) := by
        rw [hnext, hg, List.map_map]
        rfl
      subst hnext2
      have hjn : j < (l.map fun p => g ((capOne V s e c p).fst)).length := by
        rw [List.length_map]
        exact hj
      have hgetn : (l.map fun p => g ((capOne V s e c p).fst)).get ⟨j, hjn⟩
          = l.get ⟨j, hj⟩ := by
        rw [get_map_pos _ l j hj hjn, capOne_of_capped hcap]
        exact hgid _ hcap
      have hcapn : ((l.map fun p => g ((capOne V s e c p).fst)).get ⟨j, hjn⟩).cappedFlag
          = true := by
        rw [hgetn]
        exact hcap
      have := ih _ j hjn hcapn hj2
      rw [this, hgetn]

/-- Initialisation facts. -/
theorem initMeta_flag (p : Position) : (initMetaPosition p).cappedFlag = false := rfl

theorem initMeta_type (p : Position) :
    (initMetaPosition p).investment_type = p.investment_type := rfl

theorem typedAll_init (l : List Position) (hT : TypedAll l) :
    TypedAll (l.map initMetaPosition) := by
  intro p' hp'
  obtain ⟨p, hp, rfl⟩ := List.mem_map.mp hp'
  rw [initMeta_type]
  exact hT p hp

theorem cappedOK_init (V s e c : ℚ) (l : List Position) :
    CappedOK V s e c (l.map initMetaPosition) := by
  intro p' hp' hc'
  obtain ⟨p, hp, rfl⟩ := List.mem_map.mp hp'
  rw [initMeta_flag] at hc'
  cases hc'

theorem sumConstrained_init (l : List Position) :
    sumConstrained (l.map initMetaPosition) = sumTargets l := by
  unfold sumConstrained sumTargets
  rw [List.map_map]
  apply congrArg
  apply List.map_congr_left
  intro p _
  rfl

/-- The default-argument entry point operates on the initialised list in
non-first mode (the iteration-0 initialisation commutes with the body). -/
theorem applyRec_as_false (positions : List Position) (V s e c : ℚ) :
    applyTypeConstraintsRecursive positions V s e c =
      applyTypeConstraintsAux V s e c 100 false (positions.map initMetaPosition) := by
  unfold applyTypeConstraintsRecursive
  rw [show (100:ℕ) = 99 + 1 from rfl, aux_succ, aux_succ, applyStep_true]

/-- A `converged` exit is only reachable with a positive portfolio
value. -/
theorem aux_false_conv_V_pos (V s e c : ℚ) :
    ∀ fuel (l : List Position),
      (applyTypeConstraintsAux V s e c fuel false l).snd = ExitKind.converged →
      0 < V := by
  intro fuel
  induction fuel with
  | zero =>
    intro l h
    simp [applyTypeConstraintsAux] at h
  | succ n ih =>
    intro l h
    rw [aux_succ] at h
    cases happ : applyStep V s e c false l with
    | inl r =>
      obtain ⟨out, k⟩ := r
      rw [happ] at h
      simp only at h
      rcases applyStep_false_inl V s e c l out k happ with
        ⟨hk, _, _⟩ | ⟨hk, _, _, _⟩ | ⟨hk, _, _, _⟩ | ⟨hk, hv, _, _, _⟩
      · rw [hk] at h; cases h
      · rw [hk] at h; cases h
      · rw [hk] at h; cases h
      · exact lt_of_not_ge fun hge => hv (by linarith)
    | inr next =>
      rw [happ] at h
      simp only at h
      exact ih next h

theorem le_of_pct_le {V x k : ℚ} (hV : 0 < V) (h : x / V * 100 ≤ k) :
    x ≤ k / 100 * V := by
  have h100 : (0:ℚ) < 100 := by norm_num
  have h1 : x * 100 / V ≤ k := by
    have hx : x / V * 100 = x * 100 / V := by ring
    linarith [hx ▸ h]
  have h2 : x * 100 ≤ k * V := (div_le_iff₀ hV).mp h1
  have h3 : x ≤ k * V / 100 := (le_div_iff₀ h100).mpr (by linarith)
  have hx : k / 100 * V = k * V / 100 := by ring
  linarith [hx ▸ h3]

/-- Exactly-at-cap positions pass the strict cap check. -/
theorem pct_at_cap (V k : ℚ) (hV : 0 < V) :
    (k / 100 * V) / V * 100 = k := by
  field_simp
  ring

/-- If a position of the state is capped, some position of the final
result is capped. -/
theorem aux_capped_mem (V s e c : ℚ) (hV : 0 < V) (fuel : ℕ) (l : List Position)
    (hq : ∃ p ∈ l, p.cappedFlag = true) :
    ∃ p ∈ (applyTypeConstraintsAux V s e c fuel false l).fst, p.cappedFlag = true := by
  obtain ⟨p, hp, hc⟩ := hq
  obtain ⟨i, hi⟩ := List.mem_iff_get.mp hp
  have hcap : (l.get i).cappedFlag = true := by rw [hi]; exact hc
  have hj2 : i.val < (applyTypeConstraintsAux V s e c fuel false l).fst.length := by
    rw [aux_length]
    exact i.isLt
  have hpersist := aux_capped_persist V s e c hV fuel l i.val i.isLt hcap hj2
  refine ⟨(applyTypeConstraintsAux V s e c fuel false l).fst.get ⟨i.val, hj2⟩,
    List.get_mem _ _ hj2, ?_⟩
  rw [hpersist]
  exact hcap

/-- If the whole converged output is uncapped, the run was a single
clean pass: the output is exactly the initialised input. -/
theorem run_all_uncapped (positions : List Position) (V s e c : ℚ)
    (hV : 0 < V)
    (htyped : ∀ p ∈ positions, p.investment_type.isSome = true)
    (hout : ∀ p ∈ (applyTypeConstraintsRecursive positions V s e c).fst,
      p.cappedFlag = false) :
    (applyTypeConstraintsRecursive positions V s e c).fst
      = positions.map initMetaPosition := by
  rw [applyRec_as_false] at hout ⊢
  have hTm : TypedAll (positions.map initMetaPosition) := typedAll_init positions htyped
  rw [show (100:ℕ) = 99 + 1 from rfl, aux_succ] at hout ⊢
  cases happ : applyStep V s e c false (positions.map initMetaPosition) with
  | inl r =>
    obtain ⟨out, k⟩ := r
    rcases applyStep_false_inl V s e c (positions.map initMetaPosition) out k happ with
      ⟨_, hv, _⟩ | ⟨_, _, _, hout2⟩ | ⟨_, _, _, hout2⟩ | ⟨_, _, _, hsnd, hout2⟩
    · exact absurd hv (not_le.mpr hV)
    · exact hout2
    · exact hout2
    · rw [hout2]
      exact map_eq_self_of _ _ fun p hp => capOne_of_flag_false (hTm p hp) (hsnd p hp)
  | inr next =>
    exfalso
    rw [happ] at hout
    obtain ⟨_, _, _, ⟨p, hp, hps⟩, hnext⟩ :=
      applyStep_false_inr V s e c (positions.map initMetaPosition) next happ
    obtain ⟨g, hg, hgid, hgflag, _, _, _⟩ :=
      redistribute_exists_map V
        ((positions.map initMetaPosition).map fun q => (capOne V s e c q).fst)
    have hnext2 : next = (positions.map initMetaPosition).map
        fun q => g ((capOne V s e c q).fst) := by
      rw [hnext, hg, List.map_map]
      rfl
    have hpc : p.cappedFlag = false := by
      obtain ⟨q, _, rfl⟩ := List.mem_map.mp hp
      exact initMeta_flag q
    obtain ⟨t, ht⟩ := Option.isSome_iff_exists.mp (hTm p hp)
    have hcapped : ((capOne V s e c p).fst).cappedFlag = true := by
      rw [capOne_flag_true ht hpc hps]
      rfl
    have hq : ∃ q ∈ next, q.cappedFlag = true := by
      refine ⟨g ((capOne V s e c p).fst), ?_, ?_⟩
      · rw [hnext2]
        exact List.mem_map_of_mem _ hp
      · rw [hgflag]
        exact hcapped
    obtain ⟨q, hqmem, hqc⟩ := aux_capped_mem V s e c hV 99 next hq
    have := hout q hqmem
    rw [hqc] at this
    cases this

/-! ### Claim theorems on the Type-Constrained Allocator core -/

/-- Claim C1: whenever `_apply_type_constraints_recursive` converges
(stops because no position was newly capped in a pass, not via the
iteration ceiling), every valid (typed) position's constrained target
value is at most `capPercent/100` times the portfolio's target value,
where `capPercent` is the rule for its asset class. -/
theorem claim_C1_cap_respected (positions : List Position) (V s e c : ℚ)
    (htyped : ∀ p ∈ positions, p.investment_type.isSome = true)
    (hconv : (applyTypeConstraintsRecursive positions V s e c).snd
      = ExitKind.converged) :
    ∀ p ∈ (applyTypeConstraintsRecursive positions V s e c).fst,
      ∀ t, p.investment_type = some t →
        p.constrainedVal ≤ capOf s e c t / 100 * V := by
  rw [applyRec_as_false] at hconv ⊢
  have hV : 0 < V := aux_false_conv_V_pos V s e c 100 _ hconv
  have hmaster := aux_false_conv V s e c hV 100 (positions.map initMetaPosition)
    (typedAll_init positions htyped) (cappedOK_init V s e c positions)
  have hcs := hmaster.1 (Or.inl hconv)
  intro p hp t ht
  obtain ⟨t2, ht2, hdisj⟩ := hcs p hp
  rw [ht] at ht2
  have htt : t = t2 := by injection ht2
  subst htt
  rcases hdisj with ⟨_, hconstr⟩ | ⟨_, hle⟩
  · simp [Position.constrainedVal, hconstr]
  · exact le_of_pct_le hV hle

/-- Claim C1 witness: the cap bound of the concrete converged run,
instantiated at the run's first output position (a stock). -/
theorem claim_C1_witness :
    (((applyTypeConstraintsRecursive c1Positions 10000 50 50 5).fst.getD 0
        ({ name := "" } : Position)).constrainedVal)
      ≤ capOf 50 50 5 InvestmentType.Stock / 100 * 10000 :=
  claim_C1_cap_respected c1Positions 10000 50 50 5
    (by
      intro p hp
      simp only [c1Positions, stockPos, List.mem_cons, List.mem_singleton] at hp
      rcases hp with rfl | rfl | h
      · rfl
      · rfl
      · cases h)
    (by
      norm_num [c1Positions, stockPos, applyTypeConstraintsRecursive,
        applyTypeConstraintsAux, applyStep, redistribute, condUpdate, capOne,
        initMetaPosition, zeroOutPosition, cappedSum, Position.cappedFlag,
        Position.constrainedVal, Position.unconstrainedVal, capOf, ruleOf,
        List.filter, List.isEmpty, List.any, List.getD, Option.getD])
    ((applyTypeConstraintsRecursive c1Positions 10000 50 50 5).fst.getD 0
      ({ name := "" } : Position))
    (by
      norm_num [c1Positions, stockPos, applyTypeConstraintsRecursive,
        applyTypeConstraintsAux, applyStep, redistribute, condUpdate, capOne,
        initMetaPosition, zeroOutPosition, cappedSum, Position.cappedFlag,
        Position.constrainedVal, Position.unconstrainedVal, capOf, ruleOf,
        List.filter, List.isEmpty, List.any, List.getD, Option.getD])
    InvestmentType.Stock
    (by
      norm_num [c1Positions, stockPos, applyTypeConstraintsRecursive,
        applyTypeConstraintsAux, applyStep, redistribute, condUpdate, capOne,
        initMetaPosition, zeroOutPosition, cappedSum, Position.cappedFlag,
        Position.constrainedVal, Position.unconstrainedVal, capOf, ruleOf,
        List.filter, List.isEmpty, List.any, List.getD, Option.getD])

/-- Claim C2 (amended): with positive portfolio value and typed
positions, (a) if nothing ends up capped, every constrained value equals
its unconstrained value (both the original target), so the totals agree
with the input target total; (b) the constrained total never exceeds the
maximum of the portfolio target value and the input target total. -/
theorem claim_C2_conservation (positions : List Position) (V s e c : ℚ)
    (hV : 0 < V)
    (htyped : ∀ p ∈ positions, p.investment_type.isSome = true) :
    ((∀ p ∈ (applyTypeConstraintsRecursive positions V s e c).fst,
        p.cappedFlag = false) →
      (∀ p ∈ (applyTypeConstraintsRecursive positions V s e c).fst,
        p.constrained_target_value = p.unconstrained_target_value ∧
        p.constrained_target_value = some p.targetValue) ∧
      sumConstrained (applyTypeConstraintsRecursive positions V s e c).fst
        = sumTargets positions) ∧
    sumConstrained (applyTypeConstraintsRecursive positions V s e c).fst
      ≤ max V (sumTargets positions) := by
  constructor
  · intro hout
    have heq := run_all_uncapped positions V s e c hV htyped hout
    constructor
    · intro p hp
      rw [heq] at hp
      obtain ⟨q, _, rfl⟩ := List.mem_map.mp hp
      exact ⟨rfl, rfl⟩
    · rw [heq, sumConstrained_init]
  · rw [applyRec_as_false]
    have h := aux_false_sum V s e c hV 100 (positions.map initMetaPosition)
      (typedAll_init positions htyped)
    rw [sumConstrained_init] at h
    exact h

/-- Claim C2 counterexample: portfolio value 100, two stocks at 70 with a
60% stock cap.  Both get capped at 60, nothing can absorb the excess, and
the constrained total 120 exceeds the portfolio target value 100 —
refuting "if at least one position is capped, the sum of constrained
values never exceeds the portfolio's target value". -/
theorem claim_C2_counterexample :
    ((applyTypeConstraintsRecursive c2Positions 100 60 60 5).fst.map
        Position.cappedFlag = [true, true]) ∧
    sumConstrained (applyTypeConstraintsRecursive c2Positions 100 60 60 5).fst
      = 120 ∧
    ¬ ((120:ℚ) ≤ 100) := by
  refine ⟨?_, ?_, by norm_num⟩ <;>
    norm_num [c2Positions, stockPos, applyTypeConstraintsRecursive,
      applyTypeConstraintsAux, applyStep, redistribute, condUpdate, capOne,
      initMetaPosition, zeroOutPosition, cappedSum, sumConstrained,
      Position.cappedFlag, Position.constrainedVal, Position.unconstrainedVal,
      capOf, ruleOf, List.filter, List.isEmpty, List.any]

/-- Claim C2 witness: the bound of the amended claim at the
counterexample input (120 ≤ max 100 140). -/
theorem claim_C2_witness :
    sumConstrained (applyTypeConstraintsRecursive c2Positions 100 60 60 5).fst
      ≤ max 100 (sumTargets c2Positions) :=
  (claim_C2_conservation c2Positions 100 60 60 5 (by norm_num)
    (by
      intro p hp
      simp only [c2Positions, stockPos, List.mem_cons, List.mem_singleton] at hp
      rcases hp with rfl | rfl | h
      · rfl
      · rfl
      · cases h)).2

/-- Claim C3: when the redistribution step of a pass fires on a state
with a non-empty uncapped set, positive remaining capacity and
non-negative original weights, each capped position is untouched and
each uncapped position's new constrained value is its original
unconstrained weight share of the remaining capacity — or an equal split
when the weight sum is zero. -/
theorem claim_C3_redistribution_shape (V : ℚ) (ps : List Position)
    (hnn : ∀ p ∈ ps, p.cappedFlag = false → 0 ≤ p.unconstrainedVal)
    (hne : ps.filter (fun p => !p.cappedFlag) ≠ [])
    (hpos : 0 < V - cappedSum ps) :
    List.Forall₂ (fun p q =>
      (p.cappedFlag = true → q = p) ∧
      (p.cappedFlag = false →
        (((ps.filter fun x => !x.cappedFlag).map Position.unconstrainedVal).sum ≠ 0 →
          q = { p with constrained_target_value := some (p.unconstrainedVal /
            ((ps.filter fun x => !x.cappedFlag).map Position.unconstrainedVal).sum *
            (V - cappedSum ps)) }) ∧
        (((ps.filter fun x => !x.cappedFlag).map Position.unconstrainedVal).sum = 0 →
          q = { p with constrained_target_value := some ((V - cappedSum ps) /
            ((ps.filter fun x => !x.cappedFlag).length : ℚ)) })))
      ps (redistribute V ps) := by
  have hW0 : 0 ≤ ((ps.filter fun x => !x.cappedFlag).map Position.unconstrainedVal).sum := by
    apply sum_map_nonneg
    intro p hp
    have hmem := List.mem_filter.mp hp
    exact hnn p hmem.1 (by simpa using hmem.2)
  have hE : (ps.filter fun p => !p.cappedFlag).isEmpty = false := by
    rcases hh : ps.filter fun p => !p.cappedFlag with _ | ⟨a, as⟩
    · exact absurd hh hne
    · rw [hh]
      rfl
  unfold redistribute
  simp only [hE, Bool.false_eq_true, if_false]
  have h2 : V - cappedSum ps > 0 := hpos
  simp only [h2, if_true]
  by_cases hW : ((ps.filter fun x => !x.cappedFlag).map Position.unconstrainedVal).sum > 0
  · simp only [hW, if_true]
    apply forall₂_map_self
    intro p hp
    by_cases hc : p.cappedFlag = true
    · refine ⟨fun _ => condUpdate_of_capped _ p hc, fun hcf => ?_⟩
      rw [hc] at hcf
      cases hcf
    · simp only [Bool.not_eq_true] at hc
      refine ⟨fun hct => ?_, fun _ => ⟨fun _ => ?_, fun hWz => ?_⟩⟩
      · rw [hc] at hct
        cases hct
      · exact condUpdate_of_uncapped _ p hc
      · exact absurd hWz (ne_of_gt hW)
  · simp only [hW, if_false]
    have hWeq : ((ps.filter fun x => !x.cappedFlag).map Position.unconstrainedVal).sum
        = 0 := le_antisymm (not_lt.mp hW) hW0
    apply forall₂_map_self
    intro p hp
    by_cases hc : p.cappedFlag = true
    · refine ⟨fun _ => condUpdate_of_capped _ p hc, fun hcf => ?_⟩
      rw [hc] at hcf
      cases hcf
    · simp only [Bool.not_eq_true] at hc
      refine ⟨fun hct => ?_, fun _ => ⟨fun hWnz => ?_, fun _ => ?_⟩⟩
      · rw [hc] at hct
        cases hct
      · exact absurd hWeq hWnz
      · exact condUpdate_of_uncapped _ p hc

/-- Claim C3 witness: one capped stock (9000 capped at 5000) and one
uncapped stock (1000) in a 10000 portfolio; the redistribution hands the
uncapped position the full remaining 5000. -/
theorem claim_C3_witness :
    List.Forall₂ (fun p q =>
      (p.cappedFlag = true → q = p) ∧
      (p.cappedFlag = false →
        (((c3Positions.filter fun x => !x.cappedFlag).map
            Position.unconstrainedVal).sum ≠ 0 →
          q = { p with constrained_target_value := some (p.unconstrainedVal /
            ((c3Positions.filter fun x => !x.cappedFlag).map
              Position.unconstrainedVal).sum *
            (10000 - cappedSum c3Positions)) }) ∧
        (((c3Positions.filter fun x => !x.cappedFlag).map
            Position.unconstrainedVal).sum = 0 →
          q = { p with constrained_target_value := some ((10000 - cappedSum c3Positions) /
            ((c3Positions.filter fun x => !x.cappedFlag).length : ℚ)) })))
      c3Positions (redistribute 10000 c3Positions) :=
  claim_C3_redistribution_shape 10000 c3Positions
    (by
      intro p hp hpc
      simp only [c3Positions, stockPos, List.mem_cons, List.mem_singleton] at hp
      rcases hp with rfl | rfl | h
      · norm_num [Position.unconstrainedVal]
      · norm_num [Position.unconstrainedVal]
      · cases h)
    (by
      norm_num [c3Positions, stockPos, Position.cappedFlag, List.filter])
    (by
      norm_num [c3Positions, stockPos, cappedSum, Position.cappedFlag,
        Position.constrainedVal, List.filter])

/-- Claim C5 (amended): re-running the allocator on its own converged
output — each position's constrained value becoming the new input target
— re-converges with the same constrained values in the same order, but
the capping metadata is reset: every position comes back uncapped with
no cap reason, because previously capped positions sit exactly at their
caps and the strict `>` check does not re-trigger. -/
theorem claim_C5_rerun (positions : List Position) (V s e c : ℚ)
    (htyped : ∀ p ∈ positions, p.investment_type.isSome = true)
    (hconv : (applyTypeConstraintsRecursive positions V s e c).snd
      = ExitKind.converged) :
    (applyTypeConstraintsRecursive
        ((applyTypeConstraintsRecursive positions V s e c).fst.map
          fun p => { p with targetValue := p.constrainedVal }) V s e c).snd
      = ExitKind.converged ∧
    List.Forall₂
      (fun p q =>
        q.constrained_target_value = some p.constrainedVal ∧
        q.is_capped = some false ∧ q.applicable_rule = none ∧ q.name = p.name)
      (applyTypeConstraintsRecursive positions V s e c).fst
      (applyTypeConstraintsRecursive
        ((applyTypeConstraintsRecursive positions V s e c).fst.map
          fun p => { p with targetValue := p.constrainedVal }) V s e c).fst := by
  have hconv2 := hconv
  rw [applyRec_as_false] at hconv2
  have hV : 0 < V := aux_false_conv_V_pos V s e c 100 _ hconv2
  have hmaster := aux_false_conv V s e c hV 100 (positions.map initMetaPosition)
    (typedAll_init positions htyped) (cappedOK_init V s e c positions)
  have hcs : ConvState V s e c (applyTypeConstraintsRecursive positions V s e c).fst := by
    rw [applyRec_as_false]
    exact hmaster.1 (Or.inl hconv2)
  have hnonempty : (applyTypeConstraintsRecursive positions V s e c).fst ≠ [] := by
    rw [applyRec_as_false]
    exact hmaster.2 hconv2
  set out := (applyTypeConstraintsRecursive positions V s e c).fst with hout
  set F2 : Position → Position :=
    fun q => initMetaPosition { q with targetValue := q.constrainedVal } with hF2
  have hm2 : ((out.map fun p => { p with targetValue := p.constrainedVal }).map
      initMetaPosition) = out.map F2 := by
    rw [List.map_map]
    rfl
  have hflags2 : ∀ x ∈ out.map F2, x.cappedFlag = false := by
    intro x hx
    obtain ⟨q, _, rfl⟩ := List.mem_map.mp hx
    exact initMeta_flag _
  have htyped2 : TypedAll (out.map F2) := by
    intro x hx
    obtain ⟨q, hq, rfl⟩ := List.mem_map.mp hx
    obtain ⟨t, ht, _⟩ := hcs q hq
    show q.investment_type.isSome = true
    rw [ht]
    rfl
  have hany : ∀ x ∈ out.map F2, (capOne V s e c x).snd = false := by
    intro x hx
    obtain ⟨q, hq, rfl⟩ := List.mem_map.mp hx
    obtain ⟨t, ht, hdisj⟩ := hcs q hq
    have htq : (F2 q).investment_type = some t := ht
    have hcq : (F2 q).cappedFlag = false := initMeta_flag _
    have hcv : (F2 q).constrainedVal = q.constrainedVal := rfl
    have hnot : ¬ (F2 q).constrainedVal / V * 100 > capOf s e c t := by
      rw [hcv]
      rcases hdisj with ⟨_, hconstr⟩ | ⟨_, hle⟩
      · have : q.constrainedVal = capOf s e c t / 100 * V := by
          rw [Position.constrainedVal, hconstr]
          rfl
        rw [this, pct_at_cap V (capOf s e c t) hV]
        exact lt_irrefl _
      · exact not_lt.mpr hle
    rcases capOne_typed_cases V s e c (F2 q) t htq hcq with ⟨_, heq⟩ | ⟨hgt, _⟩
    · rw [heq]
    · exact absurd hgt hnot
  have hm2ne : out.map F2 ≠ [] := by
    intro hnil
    exact hnonempty (List.map_eq_nil_iff.mp hnil)
  have hfilter : (out.map F2).filter (fun p => !p.cappedFlag) = out.map F2 := by
    rw [List.filter_eq_self]
    intro x hx
    rw [hflags2 x hx]
    rfl
  have hempty : ((out.map F2).filter (fun p => !p.cappedFlag)).isEmpty = false := by
    rw [hfilter]
    rcases hh : out.map F2 with _ | ⟨a, as⟩
    · exact absurd hh hm2ne
    · rfl
  have hcs0 : cappedSum (out.map F2) = 0 := by
    unfold cappedSum
    have : (out.map F2).filter (fun p => p.cappedFlag) = [] := by
      rw [List.filter_eq_nil_iff]
      intro x hx
      rw [hflags2 x hx]
      simp
    rw [this]
    rfl
  have hpassed : ((out.map F2).map fun p => (capOne V s e c p).fst) = out.map F2 :=
    map_eq_self_of _ _ fun x hx => capOne_of_flag_false (htyped2 x hx) (hany x hx)
  have hanyb : ((out.map F2).any fun p => (capOne V s e c p).snd) = false := by
    rw [List.any_eq_false]
    intro x hx
    rw [hany x hx]
    simp
  have hstep : applyStep V s e c false (out.map F2)
      = Sum.inl (out.map F2, ExitKind.converged) := by
    unfold applyStep
    rw [if_neg (not_le.mpr hV)]
    simp only [hempty, Bool.false_eq_true, if_false, hcs0, sub_zero,
      if_neg (not_le.mpr hV), hanyb, hpassed]
  have hrerun : applyTypeConstraintsRecursive
      (out.map fun p => { p with targetValue := p.constrainedVal }) V s e c
      = (out.map F2, ExitKind.converged) := by
    rw [applyRec_as_false, hm2, show (100:ℕ) = 99 + 1 from rfl, aux_succ, hstep]
  rw [hrerun]
  refine ⟨rfl, ?_⟩
  apply forall₂_map_self
  intro q hq
  exact ⟨rfl, rfl, rfl, rfl⟩

/-- Claim C5 counterexample: portfolio value 10000, stocks 9000/1000
with a 50% cap.  The converged output caps the first position
(`is_capped = some true`), but re-running on the converged values resets
the flags to `some false` — the capping metadata is not preserved, so
the output is not unchanged. -/
theorem claim_C5_counterexample :
    ((applyTypeConstraintsRecursive c5Positions 10000 50 50 5).fst.map
        Position.is_capped = [some true, some false]) ∧
    ((applyTypeConstraintsRecursive
        ((applyTypeConstraintsRecursive c5Positions 10000 50 50 5).fst.map
          fun p => { p with targetValue := p.constrainedVal }) 10000 50 50 5).fst.map
        Position.is_capped = [some false, some false]) ∧
    ((applyTypeConstraintsRecursive c5Positions 10000 50 50 5).fst.map
        Position.constrainedVal = [5000, 5000]) ∧
    ((applyTypeConstraintsRecursive
        ((applyTypeConstraintsRecursive c5Positions 10000 50 50 5).fst.map
          fun p => { p with targetValue := p.constrainedVal }) 10000 50 50 5).fst.map
        Position.constrainedVal = [5000, 5000]) := by
  refine ⟨?_, ?_, ?_, ?_⟩ <;>
    norm_num [c5Positions, stockPos, applyTypeConstraintsRecursive,
      applyTypeConstraintsAux, applyStep, redistribute, condUpdate, capOne,
      initMetaPosition, zeroOutPosition, cappedSum, Position.cappedFlag,
      Position.constrainedVal, Position.unconstrainedVal, capOf, ruleOf,
      List.filter, List.isEmpty, List.any]

/-- Claim C5 witness: the amended claim applied to the concrete
converged run above. -/
theorem claim_C5_witness :
    (applyTypeConstraintsRecursive
        ((applyTypeConstraintsRecursive c5Positions 10000 50 50 5).fst.map
          fun p => { p with targetValue := p.constrainedVal }) 10000 50 50 5).snd
      = ExitKind.converged ∧
    List.Forall₂
      (fun p q =>
        q.constrained_target_value = some p.constrainedVal ∧
        q.is_capped = some false ∧ q.applicable_rule = none ∧ q.name = p.name)
      (applyTypeConstraintsRecursive c5Positions 10000 50 50 5).fst
      (applyTypeConstraintsRecursive
        ((applyTypeConstraintsRecursive c5Positions 10000 50 50 5).fst.map
          fun p => { p with targetValue := p.constrainedVal }) 10000 50 50 5).fst :=
  claim_C5_rerun c5Positions 10000 50 50 5
    (by
      intro p hp
      simp only [c5Positions, stockPos, List.mem_cons, List.mem_singleton] at hp
      rcases hp with rfl | rfl | h
      · rfl
      · rfl
      · cases h)
    (by
      norm_num [c5Positions, stockPos, applyTypeConstraintsRecursive,
        applyTypeConstraintsAux, applyStep, redistribute, condUpdate, capOne,
        initMetaPosition, zeroOutPosition, cappedSum, Position.cappedFlag,
        Position.constrainedVal, Position.unconstrainedVal, capOf, ruleOf,
        List.filter, List.isEmpty, List.any])

/-- Claim C8 counterexample: in Scenario D (current total 8000 from X,
investing 2000, targets X 0% / Y 100%, Y priced 50), the target-weights
mode computes Y's buy as the full gap to 100% of the new total 10000 —
amountToBuy 10000 and sharesToBuy 200 — not the claimed 2000 and 40. -/
theorem claim_C8_counterexample :
    ((_calculate_target_weights [c8X, c8Y] [("X", 0), ("Y", 100)] 2000).map
      fun r => (r.company_name, r.amount_to_buy, r.shares_to_buy))
      = [("Y", 10000, 200)] ∧
    ¬ ((10000:ℚ) = 2000 ∧ (200:ℚ) = 40) := by
  have hfX : findCompany [c8X, c8Y] "X" = some c8X := by decide
  have hfY : findCompany [c8X, c8Y] "Y" = some c8Y := by decide
  simp only [c8X, c8Y] at hfX hfY
  constructor
  · norm_num [_calculate_target_weights, List.filterMap, hfX, hfY,
      priceTruthy, c8X, c8Y]
  · intro h
    exact absurd h.1 (by norm_num)

/-- Claim C8 (amended): Scenario D under `_calculate_target_weights`
yields no recommendation for X (it is at or above its 0% target) and a
single recommendation for Y with `amountToBuy = 10000` and
`sharesToBuy = 200`: the mode closes the whole gap to the target weight
of the new total and is not limited by the invested amount. -/
theorem claim_C8_scenario_d :
    (_calculate_target_weights [c8X, c8Y] [("X", 0), ("Y", 100)] 2000).map
      (fun r => (r.company_name, r.current_value, r.target_value,
        r.amount_to_buy, r.shares_to_buy, r.current_price))
      = [("Y", 0, 10000, 10000, 200, 50)] := by
  have hfX : findCompany [c8X, c8Y] "X" = some c8X := by decide
  have hfY : findCompany [c8X, c8Y] "Y" = some c8Y := by decide
  simp only [c8X, c8Y] at hfX hfY
  norm_num [_calculate_target_weights, List.filterMap, hfX, hfY,
    priceTruthy, c8X, c8Y]

/-- Claim C9: the code rejects `{1: 60, 2: 40}` — which sums to exactly
100% — through the per-position stock-maximum check of lines 406–410,
while its own in-code comment says the test expects this allocation to
pass; validation failure is therefore not equivalent to the sum being
off by more than 0.01. -/
theorem claim_C9_per_position_check :
    validate_allocations ({} : AllocationRule) [("1", 60), ("2", 40)]
      = (false, some (ValidationFailure.stockExceedsMax 60 5)) ∧
    |(60:ℚ) + (40:ℚ) - 100| ≤ 1/100 := by
  constructor
  · norm_num [validate_allocations, List.find?]
  · norm_num

/-- Claim C10: any mode other than the three supported ones makes
`calculate_rebalancing` raise (modelled as `Except.error`), for every
input. -/
theorem claim_C10_unknown_mode (portfolio_data : List CompanyHolding)
    (target_allocations : List (String × ℚ)) (investment_amount : ℚ)
    (mode : String)
    (h1 : mode ≠ "proportional") (h2 : mode ≠ "target_weights")
    (h3 : mode ≠ "equal_weight") :
    calculate_rebalancing portfolio_data target_allocations investment_amount mode
      = Except.error ("Unknown allocation mode: " ++ mode) := by
  unfold calculate_rebalancing
  rw [if_neg h1, if_neg h2, if_neg h3]

/-- Claim C10 witness: the unknown mode "foo" on an arbitrary concrete
input. -/
theorem claim_C10_witness :
    calculate_rebalancing [] [] 0 "foo"
      = Except.error ("Unknown allocation mode: " ++ "foo") :=
  claim_C10_unknown_mode [] [] 0 "foo" (by decide) (by decide) (by decide)

/-- Every position in a computed portfolio entry carries
`targetAllocation/100` of the entry's target value. -/
theorem calcEntry_pos_target (builder : List (String × BuilderData))
    (targets : List TargetAllocation) (total : ℚ) (pdata : PortfolioData) :
    ∀ s ∈ (calcEntryForPortfolio builder targets total pdata).sectors,
      ∀ p ∈ s.positions,
        p.targetValue = p.targetAllocation / 100 *
          (calcEntryForPortfolio builder targets total pdata).targetValue := by
  intro s hs p hp
  simp only [calcEntryForPortfolio] at hs ⊢
  obtain ⟨s0, _, rfl⟩ := List.mem_map.mp hs
  simp only [setSectorTargets] at hp
  obtain ⟨p0, _, rfl⟩ := List.mem_map.mp hp
  rfl

/-- Claim C4 counterexample: a portfolio whose target value computes to 0
is skipped by the `if portfolio_target_value == 0: continue` at line 784,
so its position keeps target value 0 and never receives `is_capped`,
`constrained_target_value` or the "zero portfolio value" cap reason —
contradicting the claim that every position is returned capped with
`capReason = "zero portfolio value"` and `constrainedTargetValue = 0`. -/
theorem claim_C4_counterexample :
    ((calculate_allocation_targets_with_type_constraints c4Map [] c4Targets 100 none).map
      PortfolioEntry.targetValue = [0]) ∧
    ((calculate_allocation_targets_with_type_constraints c4Map [] c4Targets 100 none).flatMap
      (fun e => e.sectors.flatMap fun s => s.positions.map Position.applicable_rule)
      = [none]) ∧
    ((calculate_allocation_targets_with_type_constraints c4Map [] c4Targets 100 none).flatMap
      (fun e => e.sectors.flatMap fun s => s.positions.map Position.is_capped)
      = [none]) ∧
    ((calculate_allocation_targets_with_type_constraints c4Map [] c4Targets 100 none).flatMap
      (fun e => e.sectors.flatMap fun s => s.positions.map Position.constrained_target_value)
      = [none]) := by
  refine ⟨?_, ?_, ?_, ?_⟩ <;>
    norm_num [calculate_allocation_targets_with_type_constraints,
      calculate_allocation_targets, calcEntryForPortfolio, applyConstraintsToEntry,
      builderDataFor, portfolioWeightFor, currentPositionsCount, placeholderEntry,
      totalRealWeight, effectivePositionsFor, setSectorTargets, collectAllPositions,
      positionValid, c4Map, c4Pos, c4Targets, List.filter, List.flatMap]

/-- Claim C4 (amended): a portfolio entry whose computed target value is
0 passes through the type-constraint stage completely unchanged — no
position is marked capped, none gets a cap reason or a constrained
value, every position's target value is 0 — and no exception is raised
(the function is total). -/
theorem claim_C4_zero_target (pm : List PortfolioData)
    (builder : List (String × BuilderData)) (targets : List TargetAllocation)
    (total : ℚ) (rules : Option RulesDict) :
    List.Forall₂
      (fun base out => base.targetValue = 0 →
        out = base ∧ ∀ s ∈ base.sectors, ∀ p ∈ s.positions, p.targetValue = 0)
      (calculate_allocation_targets pm builder targets total)
      (calculate_allocation_targets_with_type_constraints pm builder targets
        total rules) := by
  unfold calculate_allocation_targets_with_type_constraints
  apply forall₂_map_self
  intro base hbase hz
  constructor
  · unfold applyConstraintsToEntry
    rw [if_pos hz]
  · intro s hs p hp
    unfold calculate_allocation_targets at hbase
    obtain ⟨pdata, _, rfl⟩ := List.mem_map.mp hbase
    rw [calcEntry_pos_target builder targets total pdata s hs p hp, hz, mul_zero]

/-- Claim C4 witness: the amended claim at the concrete zero-target
input. -/
theorem claim_C4_witness :
    List.Forall₂
      (fun base out => base.targetValue = 0 →
        out = base ∧ ∀ s ∈ base.sectors, ∀ p ∈ s.positions, p.targetValue = 0)
      (calculate_allocation_targets c4Map [] c4Targets 100)
      (calculate_allocation_targets_with_type_constraints c4Map [] c4Targets
        100 none) :=
  claim_C4_zero_target c4Map [] c4Targets 100 none

/-- Claim C7 (amended): the Unconstrained Target Allocator synthesizes a
"Missing Positions" sector for a portfolio iff its builder configuration
declares a placeholder entry, the current position count is strictly
below the effective position count (desired, else minimum), and the
**rounded** (Python `round`, half to even) sum of explicit
non-placeholder weights is strictly below 100; the sector then holds
`effectivePositions − currentPositionCount` placeholder slots, each with
the placeholder's weight and zero current value. -/
theorem claim_C7_missing_placeholders (pm : List PortfolioData)
    (builder : List (String × BuilderData)) (targets : List TargetAllocation)
    (total : ℚ)
    (hreserved : ∀ pdata ∈ pm, ∀ s ∈ pdata.sectors, s.name ≠ "Missing Positions") :
    List.Forall₂ (fun pdata entry =>
      ((∃ s ∈ entry.sectors, s.name = "Missing Positions") ↔
        ((placeholderEntry (builderDataFor builder pdata.name)).isSome = true ∧
          currentPositionsCount pdata
            < effectivePositionsFor (builderDataFor builder pdata.name) ∧
          pyRound (totalRealWeight (builderDataFor builder pdata.name)) < 100)) ∧
      ∀ s ∈ entry.sectors, s.name = "Missing Positions" →
        s.positions.length
          = effectivePositionsFor (builderDataFor builder pdata.name)
            - currentPositionsCount pdata ∧
        ∀ p ∈ s.positions, p.isPlaceholder = true ∧ p.currentValue = 0 ∧
          p.targetAllocation = (((placeholderEntry
            (builderDataFor builder pdata.name)).map
              fun php => php.weight.getD 0).getD 0))
      pm (calculate_allocation_targets pm builder targets total) := by
  unfold calculate_allocation_targets
  apply forall₂_map_self
  intro pdata hpd
  have hbase : ∀ s ∈ (pdata.sectors.map fun s =>
      ({ name := s.name, positions := s.positions, currentValue := s.currentValue,
         positionCount := s.positions.length } : SectorEntry)).map
        (setSectorTargets (portfolioWeightFor targets pdata.name / 100 * total)),
      s.name ≠ "Missing Positions" := by
    intro s hs
    obtain ⟨s1, hs1, rfl⟩ := List.mem_map.mp hs
    obtain ⟨s0, hs0, rfl⟩ := List.mem_map.mp hs1
    exact hreserved pdata hpd s0 hs0
  simp only [calcEntryForPortfolio]
  cases hph : placeholderEntry (builderDataFor builder pdata.name) with
  | none =>
    simp only [hph]
    constructor
    · constructor
      · rintro ⟨s, hs, hname⟩
        exact absurd hname (hbase s hs)
      · rintro ⟨hsome, _, _⟩
        simp at hsome
    · intro s hs hname
      exact absurd hname (hbase s hs)
  | some php =>
    by_cases hcond : currentPositionsCount pdata
        < effectivePositionsFor (builderDataFor builder pdata.name) ∧
        ¬ (100 ≤ pyRound (totalRealWeight (builderDataFor builder pdata.name)))
    · simp only [hph]
      rw [if_pos hcond]
      rw [List.map_append]
      constructor
      · constructor
        · intro _
          exact ⟨rfl, hcond.1, not_le.mp hcond.2⟩
        · intro _
          refine ⟨setSectorTargets (portfolioWeightFor targets pdata.name / 100 * total)
            (missingSector (php.weight.getD 0)
              (effectivePositionsFor (builderDataFor builder pdata.name)
                - currentPositionsCount pdata)), ?_, rfl⟩
          apply List.mem_append_right
          simp
      · intro s hs hname
        rcases List.mem_append.mp hs with hmem | hmem
        · exact absurd hname (hbase s hmem)
        · have hseq : s = setSectorTargets
              (portfolioWeightFor targets pdata.name / 100 * total)
              (missingSector (php.weight.getD 0)
                (effectivePositionsFor (builderDataFor builder pdata.name)
                  - currentPositionsCount pdata)) := by
            simpa using hmem
          subst hseq
          constructor
          · simp [setSectorTargets, missingSector]
          · intro p hp
            simp only [setSectorTargets, missingSector, List.map_map] at hp
            obtain ⟨i, _, rfl⟩ := List.mem_map.mp hp
            exact ⟨rfl, rfl, rfl⟩
    · simp only [hph]
      rw [if_neg hcond]
      constructor
      · constructor
        · rintro ⟨s, hs, hname⟩
          exact absurd hname (hbase s hs)
        · rintro ⟨_, h1, h2⟩
          exact (hcond ⟨h1, not_le.mpr h2⟩).elim
      · intro s hs hname
        exact absurd hname (hbase s hs)

/-- Claim C7 counterexample: the builder declares a placeholder, the
portfolio has 1 of 2 desired positions, and the explicit weights sum to
99.7 — strictly less than 100 — yet no "Missing Positions" sector is
synthesized, because the code compares `round(total_real_weight) >= 100`
and `round(99.7) = 100`. -/
theorem claim_C7_counterexample :
    (placeholderEntry (builderDataFor c7Builder "P")).isSome = true ∧
    currentPositionsCount c7Pd < effectivePositionsFor (builderDataFor c7Builder "P") ∧
    totalRealWeight (builderDataFor c7Builder "P") = 997/10 ∧
    ((997:ℚ)/10 < 100) ∧
    ((calculate_allocation_targets c7Map c7Builder c7Targets 100).map
      fun e => e.sectors.map SectorEntry.name) = [["T"]] := by
  refine ⟨?_, ?_, ?_, by norm_num, ?_⟩
  · decide
  · decide
  · norm_num [totalRealWeight, builderDataFor, c7Builder, c7Real, c7Ph,
      List.filter, List.find?]
  · norm_num [calculate_allocation_targets, calcEntryForPortfolio,
      builderDataFor, portfolioWeightFor, currentPositionsCount,
      placeholderEntry, totalRealWeight, effectivePositionsFor,
      setSectorTargets, missingSector, pyRound, c7Map, c7Pd, c7Pos,
      c7Builder, c7Real, c7Ph, c7Targets, List.filter, List.find?]

/-- Claim C7 witness: the amended claim at a concrete input (explicit
weight 50, placeholder weight 10, one of two desired positions filled) on
which the synthesis fires. -/
theorem claim_C7_witness :
    List.Forall₂ (fun pdata entry =>
      ((∃ s ∈ entry.sectors, s.name = "Missing Positions") ↔
        ((placeholderEntry (builderDataFor c7WBuilder pdata.name)).isSome = true ∧
          currentPositionsCount pdata
            < effectivePositionsFor (builderDataFor c7WBuilder pdata.name) ∧
          pyRound (totalRealWeight (builderDataFor c7WBuilder pdata.name)) < 100)) ∧
      ∀ s ∈ entry.sectors, s.name = "Missing Positions" →
        s.positions.length
          = effectivePositionsFor (builderDataFor c7WBuilder pdata.name)
            - currentPositionsCount pdata ∧
        ∀ p ∈ s.positions, p.isPlaceholder = true ∧ p.currentValue = 0 ∧
          p.targetAllocation = (((placeholderEntry
            (builderDataFor c7WBuilder pdata.name)).map
              fun php => php.weight.getD 0).getD 0))
      c7Map (calculate_allocation_targets c7Map c7WBuilder c7Targets 100) :=
  claim_C7_missing_placeholders c7Map c7WBuilder c7Targets 100 (by decide)

theorem forall₂_id {α : Type} (R : α → α → Prop) :
    ∀ l : List α, (∀ x ∈ l, R x x) → List.Forall₂ R l l := by
  intro l
  induction l with
  | nil => intro _; exact List.Forall₂.nil
  | cons x xs ih =>
    intro h
    exact List.Forall₂.cons (h x (by simp)) (ih fun y hy => h y (by simp [hy]))

theorem forall₂_map_both {α β γ : Type} (R : β → γ → Prop) (f : α → β) (g : α → γ) :
    ∀ l : List α, (∀ x ∈ l, R (f x) (g x)) → List.Forall₂ R (l.map f) (l.map g) := by
  intro l
  induction l with
  | nil => intro _; exact List.Forall₂.nil
  | cons x xs ih =>
    intro h
    exact List.Forall₂.cons (h x (by simp)) (ih fun y hy => h y (by simp [hy]))

theorem filter_flatMap {α β : Type} (f : α → List β) (q : β → Bool) :
    ∀ l : List α,
      (l.flatMap f).filter q = l.flatMap fun x => (f x).filter q := by
  intro l
  induction l with
  | nil => rfl
  | cons x xs ih => simp [List.filter_append, ih]

theorem flatMap_map_comp {α β γ : Type} (g : α → β) (f : β → List γ) :
    ∀ l : List α, (l.map g).flatMap f = l.flatMap fun x => f (g x) := by
  intro l
  induction l with
  | nil => rfl
  | cons x xs ih => simp [ih]

/-- Restricting to the non-skipped positions first does not change the
valid (identifier-and-type-carrying, non-placeholder) positions. -/
theorem filter_skip_valid :
    ∀ l : List Position,
      (((l.filter fun p => !isSkippedPos p).filter
          fun p => !p.isPlaceholder).filter positionValid)
        = ((l.filter fun p => !p.isPlaceholder).filter positionValid) := by
  intro l
  induction l with
  | nil => rfl
  | cons p ps ih =>
    simp only [isSkippedPos, Bool.not_or, Bool.not_not] at ih
    cases hph : p.isPlaceholder <;>
      cases hid : (p.identifier.getD "").isEmpty <;>
      cases hty : p.investment_type.isSome <;>
      simp [List.filter_cons, isSkippedPos, positionValid, hph, hid, hty, ih,
        -List.filter_filter]

/-- Removing skipped positions leaves the valid-positions list of the
constraint stage untouched. -/
theorem collect_removeSkipped (entry : PortfolioEntry) :
    ((collectAllPositions (removeSkipped entry)).filter positionValid)
      = (collectAllPositions entry).filter positionValid := by
  unfold collectAllPositions removeSkipped
  have h1 : ({ entry with sectors := entry.sectors.map fun s =>
      { s with positions := s.positions.filter fun p => !isSkippedPos p } }
        : PortfolioEntry).sectors
      = entry.sectors.map fun s =>
        { s with positions := s.positions.filter fun p => !isSkippedPos p } := rfl
  rw [h1, filter_map_comm
      (fun s => ({ s with positions := s.positions.filter fun p => !isSkippedPos p }
        : SectorEntry))
      (fun s => !s.isPlaceholder) (fun s => rfl), flatMap_map_comp,
    filter_flatMap, filter_flatMap]
  congr 1
  funext s
  exact filter_skip_valid s.positions

/-- Merging the constraint metadata does not change the fields the skip
predicate reads. -/
theorem mergePosition_skipped (data : List Position) (p : Position) :
    isSkippedPos (mergePosition data p) = isSkippedPos p := by
  unfold mergePosition
  cases dictLookupByName data p.name <;> rfl

theorem dictLookupByName_eq_none (data : List Position) (nm : String)
    (h : nm ∉ data.map Position.name) : dictLookupByName data nm = none := by
  unfold dictLookupByName
  rw [List.find?_eq_none]
  intro x hx
  have hxd : x ∈ data := List.mem_reverse.mp hx
  have hne : x.name ≠ nm := by
    intro heq
    exact h (heq ▸ List.mem_map_of_mem Position.name hxd)
  simpa using hne

/-- The constraint iteration keeps exactly the names of the positions it
was given (entry-point version). -/
theorem applyRec_names (l : List Position) (V s e c : ℚ) :
    ((applyTypeConstraintsRecursive l V s e c).fst).map Position.name
      = l.map Position.name := by
  rw [applyRec_as_false, aux_names]
  exact names_map_of initMetaPosition (fun p => rfl) l

/-- `List.Forall₂` between a mapped list and the original. -/
theorem forall₂_map_left {α β : Type} (R : β → α → Prop) (f : α → β) :
    ∀ l : List α, (∀ x ∈ l, R (f x) x) → List.Forall₂ R (l.map f) l := by
  intro l
  induction l with
  | nil => intro _; exact List.Forall₂.nil
  | cons x xs ih =>
    intro h
    exact List.Forall₂.cons (h x (by simp)) (ih fun y hy => h y (by simp [hy]))

/-- A position whose name is not among the constrained data's names
passes through the merge step unchanged. -/
theorem mergePosition_of_disjoint (data : List Position) (p : Position)
    (hnot : p.name ∉ data.map Position.name) : mergePosition data p = p := by
  unfold mergePosition
  rw [dictLookupByName_eq_none data p.name hnot]

/-- Let-free unfolding of `applyConstraintsToEntry` (definitional). -/
theorem applyConstraintsToEntry_eq (ms mf mc : ℚ) (entry : PortfolioEntry) :
    applyConstraintsToEntry ms mf mc entry
      = if entry.targetValue = 0 then entry
        else if ((collectAllPositions entry).filter positionValid).isEmpty then entry
        else
          { entry with sectors := (List.map
              (fun s => if s.isPlaceholder then s
                else recomputeSectorTargets entry.targetValue s)
              (List.map
                (fun s => if s.isPlaceholder then s
                  else { s with positions := s.positions.map (mergePosition
                    ((applyTypeConstraintsRecursive
                      ((collectAllPositions entry).filter positionValid)
                      entry.targetValue ms mf mc).fst)) })
                entry.sectors)) } := rfl

/-- Claim C6 counterexample: two positions share the name "X" — a valid
stock and a type-less position that the constraint stage skips.  The
merge-back at lines 826–840 keys the constrained data by name only, so
the skipped position also receives `is_capped` and
`constrained_target_value` metadata in the returned entry, contradicting
"never marked capped, never assigned a constrained target value". -/
theorem claim_C6_counterexample :
    ((calculate_allocation_targets_with_type_constraints c6Map [] c6Targets 100
        (some c6Rules)).flatMap fun entry =>
      entry.sectors.flatMap fun s => s.positions.map fun p =>
        (isSkippedPos p, p.is_capped, p.constrained_target_value))
      = [(true, some false, some 50), (false, some false, some 50)] := by
  have hae : ("a".isEmpty) = false := by decide
  have hbe : ("b".isEmpty) = false := by decide
  norm_num [calculate_allocation_targets_with_type_constraints,
    calculate_allocation_targets, calcEntryForPortfolio, applyConstraintsToEntry,
    builderDataFor, portfolioWeightFor, currentPositionsCount, placeholderEntry,
    totalRealWeight, effectivePositionsFor, setSectorTargets, collectAllPositions,
    positionValid, isSkippedPos, c6Map, c6PosA, c6PosB, c6Targets, c6Rules,
    applyTypeConstraintsRecursive, applyTypeConstraintsAux, applyStep,
    redistribute, condUpdate, capOne, initMetaPosition, zeroOutPosition,
    cappedSum, Position.cappedFlag, Position.constrainedVal,
    Position.unconstrainedVal, capOf, ruleOf, dictLookupByName, mergePosition,
    recomputeSectorTargets, hae, hbe, List.filter, List.flatMap, List.isEmpty,
    List.any, List.find?, List.reverse]

/-- Claim C6 (amended): skipped positions (placeholders, missing
identifier, or null asset class) never enter the constraint iteration's
valid set, and removing them beforehand leaves every sector's
constrained position results unchanged (their target values consume no
capacity); but the per-name merge-back copies metadata onto any
same-named sector position, so "never marked capped / never assigned a
constrained value" holds only when skipped positions share no name with
a valid one. -/
theorem claim_C6_skip (ms mf mc : ℚ) (entry : PortfolioEntry)
    (hdisj : ∀ sec ∈ entry.sectors, ∀ p ∈ sec.positions, isSkippedPos p = true →
      p.name ∉ ((collectAllPositions entry).filter positionValid).map Position.name) :
    (∀ p ∈ (collectAllPositions entry).filter positionValid, isSkippedPos p = false) ∧
    List.Forall₂
      (fun sOut sIn =>
        List.Forall₂ (fun pOut pIn => isSkippedPos pIn = true → pOut = pIn)
          sOut.positions sIn.positions)
      (applyConstraintsToEntry ms mf mc entry).sectors entry.sectors ∧
    List.Forall₂
      (fun sR sF => sR.positions = sF.positions.filter fun p => !isSkippedPos p)
      (applyConstraintsToEntry ms mf mc (removeSkipped entry)).sectors
      (applyConstraintsToEntry ms mf mc entry).sectors := by
  refine ⟨?_, ?_, ?_⟩
  · intro p hp
    rw [List.mem_filter] at hp
    obtain ⟨hpm, hpv⟩ := hp
    unfold collectAllPositions at hpm
    rw [List.mem_flatMap] at hpm
    obtain ⟨sec, hsec, hpsec⟩ := hpm
    rw [List.mem_filter] at hpsec
    have hph := hpsec.2
    unfold positionValid at hpv
    simp only [Bool.not_eq_true', Bool.and_eq_true] at hph hpv
    simp [isSkippedPos, hph, hpv.1, hpv.2]
  · rw [applyConstraintsToEntry_eq]
    by_cases h0 : entry.targetValue = 0
    · rw [if_pos h0]
      exact forall₂_id _ entry.sectors fun sec _ =>
        forall₂_id _ sec.positions fun p _ _ => rfl
    · rw [if_neg h0]
      cases hE : ((collectAllPositions entry).filter positionValid).isEmpty with
      | true =>
        rw [if_pos rfl]
        exact forall₂_id _ entry.sectors fun sec _ =>
          forall₂_id _ sec.positions fun p _ _ => rfl
      | false =>
        rw [if_neg (by simp)]
        show List.Forall₂ _ ((entry.sectors.map _).map _) entry.sectors
        rw [List.map_map]
        apply forall₂_map_left
        intro sec hsec
        cases hpl : sec.isPlaceholder with
        | false =>
          simp only [Function.comp]
          rw [if_neg (by simp [hpl]), if_neg (by simp [hpl])]
          show List.Forall₂ _ (sec.positions.map (mergePosition _)) sec.positions
          apply forall₂_map_left
          intro p hp hskip
          apply mergePosition_of_disjoint
          rw [applyRec_names]
          exact hdisj sec hsec p hp hskip
        | true =>
          simp only [Function.comp]
          rw [if_pos (by simp [hpl]), if_pos (by simp [hpl])]
          exact forall₂_id _ sec.positions fun p _ _ => rfl
  · have hcoll := collect_removeSkipped entry
    have htv : (removeSkipped entry).targetValue = entry.targetValue := rfl
    have hsecs : (removeSkipped entry).sectors
        = entry.sectors.map fun s =>
          { s with positions := s.positions.filter fun p => !isSkippedPos p } := rfl
    rw [applyConstraintsToEntry_eq ms mf mc (removeSkipped entry),
      applyConstraintsToEntry_eq ms mf mc entry, htv, hcoll]
    by_cases h0 : entry.targetValue = 0
    · rw [if_pos h0, if_pos h0, hsecs]
      apply forall₂_map_left
      intro sec hsec
      rfl
    · rw [if_neg h0, if_neg h0]
      cases hE : ((collectAllPositions entry).filter positionValid).isEmpty with
      | true =>
        rw [if_pos rfl, if_pos rfl, hsecs]
        apply forall₂_map_left
        intro sec hsec
        rfl
      | false =>
        rw [if_neg (by simp), if_neg (by simp), hsecs]
        show List.Forall₂ _ (((entry.sectors.map _).map _).map _)
          ((entry.sectors.map _).map _)
        rw [List.map_map, List.map_map, List.map_map]
        apply forall₂_map_both
        intro sec hsec
        cases hpl : sec.isPlaceholder with
        | false =>
          simp only [Function.comp]
          rw [if_neg (by simp [hpl]), if_neg (by simp [hpl]),
            if_neg (by simp [hpl]), if_neg (by simp [hpl])]
          show ((sec.positions.filter fun p => !isSkippedPos p).map (mergePosition _))
            = (sec.positions.map (mergePosition _)).filter fun p => !isSkippedPos p
          exact (filter_map_comm (mergePosition _) (fun p => !isSkippedPos p)
            (fun p => by simp [mergePosition_skipped]) sec.positions).symm
        | true =>
          simp only [Function.comp]
          rw [if_pos (by simp [hpl]), if_pos (by simp [hpl]),
            if_pos (by simp [hpl])]
          rw [if_pos hpl]

/-- Claim C6 witness: the amended skip property at a concrete entry with
a valid stock and a type-less position carrying distinct names. -/
theorem claim_C6_witness :
    (∀ p ∈ (collectAllPositions c6WEntry).filter positionValid,
      isSkippedPos p = false) ∧
    List.Forall₂
      (fun sOut sIn =>
        List.Forall₂ (fun pOut pIn => isSkippedPos pIn = true → pOut = pIn)
          sOut.positions sIn.positions)
      (applyConstraintsToEntry 60 5 5 c6WEntry).sectors c6WEntry.sectors ∧
    List.Forall₂
      (fun sR sF => sR.positions = sF.positions.filter fun p => !isSkippedPos p)
      (applyConstraintsToEntry 60 5 5 (removeSkipped c6WEntry)).sectors
      (applyConstraintsToEntry 60 5 5 c6WEntry).sectors :=
  claim_C6_skip 60 5 5 c6WEntry (by decide)

end Prismo
